import Mathlib

/-!
# Attribute resolution in `ufwb/structs.go`

A shallow embedding of the element model of package `ufwb` and of the hand-written
attribute getters of `structs.go`.

Go pointers are addresses into a heap that holds one store per element type, so a typed
pointer `*Structure` can only reach a `Structure`.  A pointer is `Option Nat`: `none` is
`nil`, `some a` is the object at address `a`.  The stores are total functions, so every
non-nil pointer reaches an object, as in a garbage-collected heap.  Nothing forbids cycles
among the `extends` and `parent` pointers; the recursive getters therefore take a fuel
argument that bounds the depth of the call stack, and `Res.outOfFuel` is the answer of a
call that needed a deeper stack than the fuel allows.

The `Xml` back pointers of the structs point to types declared in another file and are
read by none of the functions below; they are left out of the records.
-/

namespace ufwb

/-! ## Outcomes of a call -/

/-- Outcome of running a Go call with bounded stack depth. -/
inductive Res (α : Type) where
  /-- the call returned this value -/
  | val (a : α)
  /-- the call panicked with this message -/
  | panic (msg : String)
  /-- the call needed more stack depth than the fuel allowed -/
  | outOfFuel
  deriving DecidableEq, Repr

/-- Sequencing of calls: the second call runs on the value returned by the first. -/
def Res.bind {α β : Type} (r : Res α) (f : α → Res β) : Res β :=
  match r with
  | .val a => f a
  | .panic msg => .panic msg
  | .outOfFuel => .outOfFuel

/-- A call, as a function of the fuel, terminates with outcome `r` (a value or a panic). -/
def Returns {α : Type} (run : Nat → Res α) (r : Res α) : Prop :=
  r ≠ .outOfFuel ∧ ∃ fuel, run fuel = r

/-! ## Scalar types -/

/-- Go `type Colour uint32`. -/
abbrev Colour := Nat

/-- Go `Black = Colour(0x000000)`. -/
def Black : Colour := 0x000000

/-- Go `White = Colour(0xffffff)`. -/
def White : Colour := 0xffffff

/-- Go `type Reference string`. -/
abbrev Reference := String

/-- Go `type Bool int8`, the tri-state bool (unset, false, true).  It is named `TriBool`
here because `Bool` is the two-valued type of Lean; its constants live in its namespace
for the same reason. -/
structure TriBool where
  val : Int
  deriving DecidableEq, Repr

/-- Go `UnknownBool Bool = iota`. -/
def TriBool.UnknownBool : TriBool := ⟨0⟩

/-- Go `False` (second constant of the `iota` block). -/
def TriBool.False : TriBool := ⟨1⟩

/-- Go `True` (third constant of the `iota` block). -/
def TriBool.True : TriBool := ⟨2⟩

instance : Inhabited TriBool := ⟨TriBool.UnknownBool⟩

/-- Go `func (b Bool) bool() bool`: a switch on `False` and `True`, and a panic after it. -/
def TriBool.bool (b : TriBool) : Res Bool :=
  if b = TriBool.False then .val false
  else if b = TriBool.True then .val true
  else .panic "Unknown bool state"

/-- Go `func boolOf(b bool) Bool`. -/
def boolOf (b : Bool) : TriBool :=
  if b then TriBool.True else TriBool.False

/-- Go `type Endian int`. -/
structure Endian where
  val : Int
  deriving DecidableEq, Repr

def Endian.UnknownEndian : Endian := ⟨0⟩
def Endian.LittleEndian : Endian := ⟨1⟩
def Endian.BigEndian : Endian := ⟨2⟩
def Endian.DynamicEndian : Endian := ⟨3⟩

instance : Inhabited Endian := ⟨Endian.UnknownEndian⟩

/-- Go `type Display int`. -/
structure Display where
  val : Int
  deriving DecidableEq, Repr

def Display.UnknownDisplay : Display := ⟨0⟩
def Display.BinaryDisplay : Display := ⟨1⟩
def Display.DecDisplay : Display := ⟨2⟩
def Display.HexDisplay : Display := ⟨3⟩

instance : Inhabited Display := ⟨Display.UnknownDisplay⟩

/-- Go `type LengthUnit int`. -/
structure LengthUnit where
  val : Int
  deriving DecidableEq, Repr

def UnknownLengthUnit : LengthUnit := ⟨0⟩
def BitLengthUnit : LengthUnit := ⟨1⟩
def ByteLengthUnit : LengthUnit := ⟨2⟩

instance : Inhabited LengthUnit := ⟨UnknownLengthUnit⟩

/-- Go `type Order int`. -/
structure Order where
  val : Int
  deriving DecidableEq, Repr

def Order.UnknownOrder : Order := ⟨0⟩
def Order.FixedOrder : Order := ⟨1⟩
def Order.VariableOrder : Order := ⟨2⟩

instance : Inhabited Order := ⟨Order.UnknownOrder⟩

/-! ## Element records -/

/-- A Go pointer: `none` is `nil`, `some a` the object at address `a` of the store of the
pointer's type. -/
abbrev Ptr := Option Nat

/-- A value of the Go interface `Element`: `nil`, or a pointer tagged with its dynamic
type. -/
inductive Element where
  | nil
  | grammar (a : Nat)
  | structure (a : Nat)
  | grammarRef (a : Nat)
  | custom (a : Nat)
  | structRef (a : Nat)
  | string (a : Nat)
  | binary (a : Nat)
  | number (a : Nat)
  | offset (a : Nat)
  | scriptElement (a : Nat)
  | padding (a : Nat)
  deriving DecidableEq, Repr

instance : Inhabited Element := ⟨Element.nil⟩

/-- Go `type Colourful struct`; a `*Colour` is modelled by the optional colour it points
to. -/
structure Colourful where
  fillColour : Option Colour := none
  strokeColour : Option Colour := none
  deriving DecidableEq, Repr, Inhabited

/-- Go `type Base struct`. -/
structure Base where
  elemType : String := ""
  id : Int := 0
  name : String := ""
  description : String := ""
  deriving DecidableEq, Repr, Inhabited

/-- Go `type Repeats struct`. -/
structure Repeats where
  repeatMin : Reference := ""
  repeatMax : Reference := ""
  deriving DecidableEq, Repr, Inhabited

/-- Go `type Script struct`; the field `Type` is spelled `Type_`, the plain word being
reserved in Lean. -/
structure Script where
  Name : String := ""
  Type_ : String := ""
  Language : String := ""
  Text : String := ""
  deriving DecidableEq, Repr, Inhabited

/-- Go `type Grammar struct`; `Scripts` holds `*Script` pointers. -/
structure Grammar where
  base : Base := {}
  repeats : Repeats := {}
  Author : String := ""
  Ext : String := ""
  Email : String := ""
  Complete : TriBool := default
  Uti : String := ""
  Start : Element := .nil
  Scripts : List Ptr := []
  Elements : List Element := []
  deriving DecidableEq, Repr, Inhabited

/-- Go `type Structure struct`.  The field `extends` is spelled `extends_`, the plain
word being reserved in Lean. -/
structure Structure where
  base : Base := {}
  repeats : Repeats := {}
  colourful : Colourful := {}
  extends_ : Ptr := none
  parent : Ptr := none
  length : Reference := ""
  lengthUnit : LengthUnit := default
  lengthOffset : Reference := ""
  endian : Endian := default
  signed : TriBool := default
  encoding : String := ""
  order : Order := default
  display : Display := default
  elements : List Element := []
  deriving DecidableEq, Repr, Inhabited

/-- Go `type GrammarRef struct`. -/
structure GrammarRef where
  base : Base := {}
  repeats : Repeats := {}
  extends_ : Ptr := none
  uti : String := ""
  filename : String := ""
  disabled : TriBool := default
  grammar : Ptr := none
  deriving DecidableEq, Repr, Inhabited

/-- Go `type Custom struct`. -/
structure Custom where
  base : Base := {}
  colourful : Colourful := {}
  extends_ : Ptr := none
  length : Reference := ""
  lengthUnit : LengthUnit := default
  script : Ptr := none
  deriving DecidableEq, Repr, Inhabited

/-- Go `type StructRef struct`. -/
structure StructRef where
  base : Base := {}
  repeats : Repeats := {}
  colourful : Colourful := {}
  disabled : TriBool := default
  extends_ : Ptr := none
  structure_ : Ptr := none
  deriving DecidableEq, Repr, Inhabited

/-- Go `type Number struct`; `values` and `masks` hold pointers, `Type` is spelled
`Type_`. -/
structure Number where
  base : Base := {}
  repeats : Repeats := {}
  colourful : Colourful := {}
  extends_ : Ptr := none
  parent : Ptr := none
  Type_ : String := ""
  length : Reference := ""
  lengthUnit : LengthUnit := default
  endian : Endian := default
  signed : TriBool := default
  display : Display := default
  valueExpression : String := ""
  minVal : String := ""
  maxVal : String := ""
  mustMatch : TriBool := default
  values : List Ptr := []
  masks : List Ptr := []
  deriving DecidableEq, Repr, Inhabited

/-- Go `type ScriptElement struct`. -/
structure ScriptElement where
  base : Base := {}
  repeats : Repeats := {}
  extends_ : Ptr := none
  Script : Ptr := none
  deriving DecidableEq, Repr, Inhabited

/-- Go `type String struct`, the string element.  It is named `String_` here because
`String` is the type of Lean strings, which the records use; `values` holds pointers. -/
structure String_ where
  base : Base := {}
  repeats : Repeats := {}
  colourful : Colourful := {}
  extends_ : Ptr := none
  parent : Ptr := none
  typ : String := ""
  length : Reference := ""
  lengthUnit : LengthUnit := default
  encoding : String := ""
  delimiter : Nat := 0
  mustMatch : TriBool := default
  values : List Ptr := []
  deriving DecidableEq, Repr, Inhabited

/-- Go `type Binary struct`; `values` holds pointers. -/
structure Binary where
  base : Base := {}
  repeats : Repeats := {}
  colourful : Colourful := {}
  extends_ : Ptr := none
  parent : Ptr := none
  length : Reference := ""
  lengthUnit : LengthUnit := default
  mustMatch : TriBool := default
  values : List Ptr := []
  deriving DecidableEq, Repr, Inhabited

/-- Go `type Offset struct`. -/
structure Offset where
  base : Base := {}
  repeats : Repeats := {}
  colourful : Colourful := {}
  extends_ : Ptr := none
  parent : Ptr := none
  length : Reference := ""
  lengthUnit : LengthUnit := default
  endian : Endian := default
  display : Display := default
  relativeTo : Element := .nil
  followNullReference : TriBool := default
  references : Element := .nil
  referencedSize : Element := .nil
  additional : String := ""
  deriving DecidableEq, Repr, Inhabited

/-- Go `type Padding struct`. -/
structure Padding where
  base : Base := {}
  deriving DecidableEq, Repr, Inhabited

/-- The heap: one store per element type. -/
structure Heap where
  grammars : Nat → Grammar := fun _ => {}
  structures : Nat → Structure := fun _ => {}
  grammarRefs : Nat → GrammarRef := fun _ => {}
  customs : Nat → Custom := fun _ => {}
  structRefs : Nat → StructRef := fun _ => {}
  numbers : Nat → Number := fun _ => {}
  scriptElements : Nat → ScriptElement := fun _ => {}
  strings : Nat → String_ := fun _ => {}
  binaries : Nat → Binary := fun _ => {}
  offsets : Nat → Offset := fun _ => {}
  paddings : Nat → Padding := fun _ => {}

/-! ## Signedness -/

/-- Go `func (s *Structure) Signed() bool`, called on the Structure at address `a` with
stack depth `fuel`. -/
def Structure.Signed (h : Heap) : Nat → Nat → Res Bool
  | 0, _ => .outOfFuel
  | fuel + 1, a =>
    if (h.structures a).signed ≠ TriBool.UnknownBool then
      (h.structures a).signed.bool
    else
      match (h.structures a).extends_ with
      | some e => Structure.Signed h fuel e
      | none =>
        match (h.structures a).parent with
        | some p => Structure.Signed h fuel p
        | none => .val true

/-- Go `func (n *Number) Signed() bool`, called on the Number at address `a` with stack
depth `fuel`. -/
def Number.Signed (h : Heap) : Nat → Nat → Res Bool
  | 0, _ => .outOfFuel
  | fuel + 1, a =>
    if (h.numbers a).signed ≠ TriBool.UnknownBool then
      (h.numbers a).signed.bool
    else
      match (h.numbers a).extends_ with
      | some e => Number.Signed h fuel e
      | none =>
        match (h.numbers a).parent with
        | some p => Structure.Signed h fuel p
        | none => .val true

/-! ## Lengths and repeat bounds -/

/-- The getters that `go:generate getter` writes for the struct fields and that the
methods of `structs.go` call.  The generated file is not among the sources, so the
getters are parameters: each maps the heap and the receiver pointer to the outcome of
the call (`Res.outOfFuel` stands for a call that does not terminate). -/
structure Getters where
  /-- Go `func (s *StructRef) Structure() *Structure` -/
  StructRef_Structure : Heap → Ptr → Res Ptr
  /-- Go `func (s *Structure) Length() Reference` -/
  Structure_Length : Heap → Ptr → Res Reference
  /-- Go `func (s *Structure) LengthUnit() LengthUnit` -/
  Structure_LengthUnit : Heap → Ptr → Res LengthUnit
  /-- Go `func (g *GrammarRef) Grammar() *Grammar` -/
  GrammarRef_Grammar : Heap → Ptr → Res Ptr

/-- Go `func (s *StructRef) Length() Reference`: `s.Structure().Length()`. -/
def StructRef.Length (G : Getters) (h : Heap) (s : Ptr) : Res Reference :=
  (G.StructRef_Structure h s).bind fun t => G.Structure_Length h t

/-- Go `func (s *StructRef) LengthUnit() LengthUnit`: `s.Structure().LengthUnit()`. -/
def StructRef.LengthUnit (G : Getters) (h : Heap) (s : Ptr) : Res LengthUnit :=
  (G.StructRef_Structure h s).bind fun t => G.Structure_LengthUnit h t

/-- Go `func (g *Grammar) Length() Reference`; the receiver is not read. -/
def Grammar.Length (_h : Heap) (_g : Ptr) : Reference := ""

/-- Go `func (g *Grammar) LengthUnit() LengthUnit`; the receiver is not read. -/
def Grammar.LengthUnit (_h : Heap) (_g : Ptr) : LengthUnit := ByteLengthUnit

/-- Go `func (g *GrammarRef) Length() Reference`: `g.Grammar().Length()`. -/
def GrammarRef.Length (G : Getters) (h : Heap) (g : Ptr) : Res Reference :=
  (G.GrammarRef_Grammar h g).bind fun t => .val (Grammar.Length h t)

/-- Go `func (g *GrammarRef) LengthUnit() LengthUnit`: `g.Grammar().LengthUnit()`. -/
def GrammarRef.LengthUnit (G : Getters) (h : Heap) (g : Ptr) : Res LengthUnit :=
  (G.GrammarRef_Grammar h g).bind fun t => .val (Grammar.LengthUnit h t)

/-- Go `func (s *ScriptElement) Length() Reference`; the receiver is not read. -/
def ScriptElement.Length (_h : Heap) (_s : Ptr) : Reference := "0"

/-- Go `func (s *ScriptElement) LengthUnit() LengthUnit`; the receiver is not read. -/
def ScriptElement.LengthUnit (_h : Heap) (_s : Ptr) : LengthUnit := ByteLengthUnit

/-- Go `func (*Custom) RepeatMin() Reference`; the receiver has no name. -/
def Custom.RepeatMin (_h : Heap) (_c : Ptr) : Reference := "1"

/-- Go `func (*Custom) RepeatMax() Reference`; the receiver has no name. -/
def Custom.RepeatMax (_h : Heap) (_c : Ptr) : Reference := "1"

/-- An instance of the generated getters for the examples: each reads the field of its
receiver and panics on a nil receiver. -/
def fieldGetters : Getters where
  StructRef_Structure := fun h s =>
    match s with
    | none => .panic "nil pointer dereference"
    | some a => .val (h.structRefs a).structure_
  Structure_Length := fun h s =>
    match s with
    | none => .panic "nil pointer dereference"
    | some a => .val (h.structures a).length
  Structure_LengthUnit := fun h s =>
    match s with
    | none => .panic "nil pointer dereference"
    | some a => .val (h.structures a).lengthUnit
  GrammarRef_Grammar := fun h g =>
    match g with
    | none => .panic "nil pointer dereference"
    | some a => .val (h.grammarRefs a).grammar

/-! ## Example heap -/

/-- A heap for the examples: Structure 0 is locally unsigned although it extends and sits
inside the signed Structure 1; Structure 2 extends 0 inside 1; Structure 3 extends 2;
Structure 4 only sits inside 0; Structure 6 has length 8 and is the target of StructRef 0;
every other Structure has nothing set.  The Numbers 0 to 4 mirror the Structures 0 to 4,
with the Structures 1, 1, 1 and 0 as parents.  GrammarRef 0 refers to Grammar 0.
Structure 7 is a header whose only child is the Number 7, a magic number. -/
def demoHeap : Heap where
  structures := fun a =>
    match a with
    | 0 => { signed := TriBool.False, extends_ := some 1, parent := some 1 }
    | 1 => { signed := TriBool.True }
    | 2 => { extends_ := some 0, parent := some 1 }
    | 3 => { extends_ := some 2 }
    | 4 => { parent := some 0 }
    | 6 => { length := "8", lengthUnit := ByteLengthUnit }
    | 7 => { base := { name := "Header" }, elements := [.number 7] }
    | _ => {}
  structRefs := fun a =>
    match a with
    | 0 => { structure_ := some 6 }
    | _ => {}
  grammars := fun a =>
    match a with
    | 0 => { Author := "a", Start := .structure 6, repeats := { repeatMin := "2" } }
    | _ => {}
  grammarRefs := fun a =>
    match a with
    | 0 => { grammar := some 0 }
    | _ => {}
  numbers := fun a =>
    match a with
    | 0 => { signed := TriBool.False, extends_ := some 1, parent := some 1 }
    | 1 => { signed := TriBool.True }
    | 2 => { extends_ := some 0, parent := some 1 }
    | 3 => { extends_ := some 2 }
    | 4 => { parent := some 0 }
    | 7 => { base := { name := "magic" }, length := "4", parent := some 7 }
    | _ => {}

/-! ## Chains of `extends` pointers -/

/-- The Structures `e, l₀, l₁, …` form an `extends` chain whose members, the last one
apart, have `signed` unset: each one's `extends` pointer is the next one. -/
def Structure.UnsetChain (h : Heap) : Nat → List Nat → Prop
  | _, [] => True
  | e, p :: rest =>
    (h.structures e).signed = TriBool.UnknownBool ∧ (h.structures e).extends_ = some p ∧
      Structure.UnsetChain h p rest

/-- The Numbers `e, l₀, l₁, …` form an `extends` chain whose members, the last one apart,
have `signed` unset. -/
def Number.UnsetChain (h : Heap) : Nat → List Nat → Prop
  | _, [] => True
  | e, p :: rest =>
    (h.numbers e).signed = TriBool.UnknownBool ∧ (h.numbers e).extends_ = some p ∧
      Number.UnsetChain h p rest

/-- The heap in which the `parent` pointer of the Structure at `e` is `q`. -/
def Heap.withStructureParent (h : Heap) (e : Nat) (q : Ptr) : Heap :=
  { h with structures := fun a => if a = e then { h.structures e with parent := q }
                                  else h.structures a }

/-- The heap in which the `parent` pointer of the Number at `e` is `q`. -/
def Heap.withNumberParent (h : Heap) (e : Nat) (q : Ptr) : Heap :=
  { h with numbers := fun a => if a = e then { h.numbers e with parent := q }
                               else h.numbers a }

/-! ## Decode protocol -/

/-- Modelled from the spec: the outcomes other than a Value of a Read call, that is the
fatal error kinds of §7 (`IOError`, `ReferenceResolutionError`) that a Read call returns,
next to the two ways in which a call returns nothing: a panic, and a call stack deeper
than the fuel.  The Read implementations are not among the sources. -/
inductive ReadError where
  | io
  | unresolvedReference
  | panic (msg : String)
  | outOfFuel
  deriving DecidableEq, Repr

/-- Modelled from the spec: the decoder collaborator of §6, a byte source with a current
offset.  The type `Decoder` is declared outside the sources. -/
structure Decoder where
  file : List Nat
  offset : Nat
  deriving DecidableEq, Repr

/-- Modelled from the spec: `ReadBytes(offset, length)` of §6, which fails with an I/O
error when `offset + length` exceeds the source and never truncates. -/
def Decoder.ReadBytes (d : Decoder) (offset length : Nat) : Except ReadError (List Nat) :=
  if offset + length ≤ d.file.length then .ok ((d.file.drop offset).take length)
  else .error .io

/-- Modelled from the spec: `Advance(n)` of §6. -/
def Decoder.Advance (d : Decoder) (n : Nat) : Decoder :=
  { d with offset := d.offset + n }

/-- Modelled from the spec: `Seek` of §6. -/
def Decoder.Seek (d : Decoder) (offset : Nat) : Decoder :=
  { d with offset := offset }

/-- Modelled from the spec: a Value, the decoded result of applying an Element's Read at
an offset (Glossary).  `Offset` and `Len` are the fields that the comment of `Reader`
names; `lineage` holds the reference elements through which the Value was read (§4.3),
`mismatch` the report of a `ValueMismatchError`, which is not fatal (§7), `children` the
Values of the children of a Structure.  The type `Value` is declared outside the
sources. -/
inductive Value where
  | mk (Offset Len : Nat) (element : Element) (lineage : List Element) (mismatch : Bool)
      (children : List Value)

/-- Field `Offset` of a Value. -/
def Value.Offset : Value → Nat
  | .mk o _ _ _ _ _ => o

/-- Field `Len` of a Value. -/
def Value.Len : Value → Nat
  | .mk _ l _ _ _ _ => l

/-- Modelled from the spec: §4.3, a reference element records its identity in the
lineage of the Value that its target produced. -/
def Value.recordLineage (r : Element) : Value → Value
  | .mk o l e lin m cs => .mk o l e (r :: lin) m cs

/-- Modelled from the spec: what §4.3 and §6 leave to the collaborators of the core or to
the evaluation of References at decode time.  The scope is the list of the Values decoded
so far, siblings first. -/
structure Collaborators where
  /-- byte count of a scalar leaf: its `Length`/`LengthUnit` resolved, evaluated against
  the scope and converted to bytes; fails on an unresolved reference -/
  byteLength : Heap → Element → List Value → Except ReadError Nat
  /-- own length in bytes of the Structure at an address, when set -/
  structureLength : Heap → Nat → List Value → Except ReadError (Option Nat)
  /-- number of repetitions of the Structure at an address, from its repeat bounds -/
  repetitions : Heap → Nat → List Value → Except ReadError Nat
  /-- children of the Structure at an address in the order in which one repetition
  decodes them: declaration order, or the selected order for `VariableOrder` -/
  childOrder : Heap → Nat → List Value → List Element
  /-- `mustMatch` holds and the bytes match none of the fixed values -/
  mismatch : Heap → Element → List Nat → Bool
  /-- length that the script of a Custom or ScriptElement reports -/
  scriptLength : Heap → Element → Decoder → Except ReadError Nat

/-- Modelled from the spec: the boundary of a Structure with a set length has been
reached. -/
def atLimit : Option Nat → Decoder → Bool
  | none, _ => false
  | some b, d => decide (b ≤ d.offset)

/-- Modelled from the spec: §4.3, one repetition of a Structure decodes the children in
order, each at the offset where the one before left the decoder; it stops at the boundary
of the Structure, and an error of a child ends the Read (§7). -/
def readChildren (rd : Element → List Value → Decoder → Except ReadError (Value × Decoder))
    (limit : Option Nat) (scope : List Value) :
    List Element → List Value → Decoder → Except ReadError (List Value × Decoder)
  | [], vs, d => .ok (vs, d)
  | c :: cs, vs, d =>
    if atLimit limit d then .ok (vs, d)
    else
      match rd c (vs ++ scope) d with
      | .error err => .error err
      | .ok (v, d2) => readChildren rd limit scope cs (vs ++ [v]) d2

/-- Modelled from the spec: §4.3, the repetitions of a Structure, one after the other. -/
def readRepetitions
    (rd : Element → List Value → Decoder → Except ReadError (Value × Decoder))
    (limit : Option Nat) (scope : List Value) (children : List Value → List Element) :
    Nat → List Value → Decoder → Except ReadError (List Value × Decoder)
  | 0, vs, d => .ok (vs, d)
  | n + 1, vs, d =>
    match readChildren rd limit scope (children (vs ++ scope)) vs d with
    | .error err => .error err
    | .ok (vs2, d2) => readRepetitions rd limit scope children n vs2 d2

/-- Modelled from the spec: the end of a Structure, trimmed at its boundary. -/
def trimAt : Option Nat → Nat → Nat
  | none, stop => stop
  | some b, stop => min b stop

/-- Modelled from the spec: `Read(decoder) -> (Value, error)` of §4.3, per element kind,
called with stack depth `fuel`.

* Number, String, Binary, Offset: resolve the byte count, request that many bytes at the
  current offset, and advance by that count, also when the bytes mismatch.
* Structure: decode the children, repetition after repetition, within the own length.
* StructRef, GrammarRef: the Read of the referenced element, with the reference recorded
  in the lineage.  A Grammar decodes from its `Start` element (§6).
* Custom, ScriptElement: advance by the length that the script reports.
* Padding: no bytes, a placeholder Value. -/
def Read (G : Getters) (C : Collaborators) (h : Heap) :
    Nat → Element → List Value → Decoder → Except ReadError (Value × Decoder)
  | 0, _, _, _ => .error .outOfFuel
  | fuel + 1, e, scope, d =>
    match e with
    | .nil => .error (.panic "nil pointer dereference")
    | .number _ | .string _ | .binary _ | .offset _ =>
      match C.byteLength h e scope with
      | .error err => .error err
      | .ok n =>
        match d.ReadBytes d.offset n with
        | .error err => .error err
        | .ok bytes => .ok (.mk d.offset n e [] (C.mismatch h e bytes) [], d.Advance n)
    | .structure a =>
      match C.repetitions h a scope with
      | .error err => .error err
      | .ok reps =>
        match C.structureLength h a scope with
        | .error err => .error err
        | .ok len =>
          match readRepetitions (Read G C h fuel) (len.map (d.offset + ·)) scope
              (C.childOrder h a) reps [] d with
          | .error err => .error err
          | .ok (vs, d2) =>
            .ok (.mk d.offset (trimAt (len.map (d.offset + ·)) d2.offset - d.offset) e []
                  false vs,
                d2.Seek (trimAt (len.map (d.offset + ·)) d2.offset))
    | .structRef a =>
      match G.StructRef_Structure h (some a) with
      | .val (some t) =>
        match Read G C h fuel (.structure t) scope d with
        | .error err => .error err
        | .ok (v, d2) => .ok (v.recordLineage e, d2)
      | .val none => .error (.panic "nil pointer dereference")
      | .panic msg => .error (.panic msg)
      | .outOfFuel => .error .outOfFuel
    | .grammarRef a =>
      match G.GrammarRef_Grammar h (some a) with
      | .val (some t) =>
        match Read G C h fuel (.grammar t) scope d with
        | .error err => .error err
        | .ok (v, d2) => .ok (v.recordLineage e, d2)
      | .val none => .error (.panic "nil pointer dereference")
      | .panic msg => .error (.panic msg)
      | .outOfFuel => .error .outOfFuel
    | .grammar a => Read G C h fuel (h.grammars a).Start scope d
    | .custom _ | .scriptElement _ =>
      match C.scriptLength h e d with
      | .error err => .error err
      | .ok n => .ok (.mk d.offset n e [] false [], d.Advance n)
    | .padding _ => .ok (.mk d.offset 0 e [] false [], d)

/-- A reader leaves the decoder at the end of the Value that it returns, and the Value
starts where the decoder was. -/
def LeavesAtEnd (rd : Element → List Value → Decoder → Except ReadError (Value × Decoder)) :
    Prop :=
  ∀ c s d v d2, rd c s d = .ok (v, d2) → d2.offset = v.Offset + v.Len ∧ v.Offset = d.offset

/-- Collaborators for the examples: every Number is four bytes long and must match the
magic number `89 50 4E 47`; a Structure has no length of its own, repeats once and
decodes its children in declaration order; scripts report no bytes. -/
def demoCollaborators : Collaborators where
  byteLength := fun _ e _ =>
    match e with
    | .number _ => .ok 4
    | _ => .error .unresolvedReference
  structureLength := fun _ _ _ => .ok none
  repetitions := fun _ _ _ => .ok 1
  childOrder := fun h a _ => (h.structures a).elements
  mismatch := fun _ _ bytes => decide (bytes ≠ [0x89, 0x50, 0x4E, 0x47])
  scriptLength := fun _ _ _ => .ok 0

/-! ## Children by name -/

/-- Go `func (b *Base) Name() string`. -/
def Base.Name (b : Base) : String := b.name

/-- The call `element.Name()` on a value of the interface `Element`: the method `Name` of
the `Base` embedded in the object behind the interface, and a panic on the nil
interface. -/
def Element.Name (h : Heap) : Element → Res String
  | .nil => .panic "nil pointer dereference"
  | .grammar a => .val (h.grammars a).base.Name
  | .structure a => .val (h.structures a).base.Name
  | .grammarRef a => .val (h.grammarRefs a).base.Name
  | .custom a => .val (h.customs a).base.Name
  | .structRef a => .val (h.structRefs a).base.Name
  | .string a => .val (h.strings a).base.Name
  | .binary a => .val (h.binaries a).base.Name
  | .number a => .val (h.numbers a).base.Name
  | .offset a => .val (h.offsets a).base.Name
  | .scriptElement a => .val (h.scriptElements a).base.Name
  | .padding a => .val (h.paddings a).base.Name

/-- The `range` loop of Go `Elements.Find` over the elements that are left, the first of
which has index `i`; after the loop, `return -1, nil`. -/
def Elements.FindFrom (h : Heap) (name : String) : List Element → Int → Res (Int × Element)
  | [], _ => .val (-1, .nil)
  | element :: rest, i =>
    match Element.Name h element with
    | .val n => if n = name then .val (i, element) else Elements.FindFrom h name rest (i + 1)
    | .panic msg => .panic msg
    | .outOfFuel => .outOfFuel

/-- Go `func (e Elements) Find(name string) (int, Element)`. -/
def Elements.Find (h : Heap) (e : List Element) (name : String) : Res (Int × Element) :=
  Elements.FindFrom h name e 0

/-- Go `func (s *Structure) ElementByName(name string) Element`, called on the Structure
at address `a` with stack depth `fuel`. -/
def Structure.ElementByName (h : Heap) (name : String) : Nat → Nat → Res Element
  | 0, _ => .outOfFuel
  | fuel + 1, a =>
    match Elements.Find h (h.structures a).elements name with
    | .val (_, e) =>
      if e ≠ .nil then .val e
      else
        match (h.structures a).extends_ with
        | some x => Structure.ElementByName h name fuel x
        | none => .val .nil
    | .panic msg => .panic msg
    | .outOfFuel => .outOfFuel

/-- The Structures `a, l₀, l₁, …` are the whole `extends` chain of `a`: each one's
`extends` pointer is the next one, and the last one has none. -/
def Structure.ExtendsChain (h : Heap) : Nat → List Nat → Prop
  | a, [] => (h.structures a).extends_ = none
  | a, b :: rest => (h.structures a).extends_ = some b ∧ Structure.ExtendsChain h b rest

/-- No entry of the children list of the Structure at `a` is the nil interface, so that
every child is an element and has a name. -/
def Structure.ChildrenPresent (h : Heap) (a : Nat) : Prop :=
  ∀ e ∈ (h.structures a).elements, e ≠ Element.nil

/-- Some child of the Structure at `a` is called `name`. -/
def Structure.HasChildNamed (h : Heap) (name : String) (a : Nat) : Prop :=
  ∃ e ∈ (h.structures a).elements, Element.Name h e = .val name

/-! ## Setting the signedness -/

/-- Go `func (s *Structure) SetSigned(signed bool)`: the heap after the call on the
Structure at address `a`. -/
def Structure.SetSigned (h : Heap) (a : Nat) (signed : Bool) : Heap :=
  { h with structures := fun x =>
      if x = a then { h.structures a with signed := boolOf signed } else h.structures x }

/-- Go `func (n *Number) SetSigned(signed bool)`: the heap after the call on the Number
at address `a`. -/
def Number.SetSigned (h : Heap) (a : Nat) (signed : Bool) : Heap :=
  { h with numbers := fun x =>
      if x = a then { h.numbers a with signed := boolOf signed } else h.numbers x }

/-! ## Well-formed elements -/

/-- The value is one of the three declared constants of Go `Bool`. -/
def TriBool.Declared (b : TriBool) : Prop :=
  b = TriBool.UnknownBool ∨ b = TriBool.False ∨ b = TriBool.True

/-- The Structure at `b` is reachable from the Structure at `a` through `extends` and
`parent` pointers. -/
inductive Structure.Reaches (h : Heap) : Nat → Nat → Prop where
  | self (a : Nat) : Structure.Reaches h a a
  | viaExtends {a e b : Nat} : (h.structures a).extends_ = some e →
      Structure.Reaches h e b → Structure.Reaches h a b
  | viaParent {a p b : Nat} : (h.structures a).parent = some p →
      Structure.Reaches h p b → Structure.Reaches h a b

/-- Every chain of `extends` and `parent` pointers that starts at the Structure at `a` is
finite. -/
inductive Structure.FiniteChains (h : Heap) : Nat → Prop where
  | mk {a : Nat} :
      (∀ e, (h.structures a).extends_ = some e → Structure.FiniteChains h e) →
      (∀ p, (h.structures a).parent = some p → Structure.FiniteChains h p) →
      Structure.FiniteChains h a

/-- The Number at `m` is reachable from the Number at `n` through `extends` pointers. -/
inductive Number.ReachesNumber (h : Heap) : Nat → Nat → Prop where
  | self (n : Nat) : Number.ReachesNumber h n n
  | viaExtends {n e m : Nat} : (h.numbers n).extends_ = some e →
      Number.ReachesNumber h e m → Number.ReachesNumber h n m

/-- The Structure at `s` is reachable from the Number at `n`: it is reachable from the
parent Structure of a Number on the `extends` chain of `n`. -/
def Number.ReachesStructure (h : Heap) (n s : Nat) : Prop :=
  ∃ m p, Number.ReachesNumber h n m ∧ (h.numbers m).parent = some p ∧
    Structure.Reaches h p s

/-- Every chain of `extends` and `parent` pointers that starts at the Number at `n` is
finite. -/
inductive Number.FiniteChains (h : Heap) : Nat → Prop where
  | mk {n : Nat} :
      (∀ e, (h.numbers n).extends_ = some e → Number.FiniteChains h e) →
      (∀ p, (h.numbers n).parent = some p → Structure.FiniteChains h p) →
      Number.FiniteChains h n

/-! ## Repeat bounds and colours of a Structure -/

/-- Modelled from the spec: the generated getter `RepeatMin()` of a Structure, whose file
is not among the sources.  By the resolver of §4.1 a locally set `repeatMin` (one that is
not the unset Reference `""`) is returned, else the extended Structure answers, else the
static default `"1"` is returned (§3, Repeats); repeat bounds are never inherited from
the parent, as the tags `default:"Reference(\"1\")" parent:"false"` of the field say. -/
def Structure.RepeatMin (h : Heap) : Nat → Nat → Res Reference
  | 0, _ => .outOfFuel
  | fuel + 1, a =>
    if (h.structures a).repeats.repeatMin ≠ "" then .val (h.structures a).repeats.repeatMin
    else
      match (h.structures a).extends_ with
      | some e => Structure.RepeatMin h fuel e
      | none => .val "1"

/-- Modelled from the spec: the generated getter `RepeatMax()` of a Structure, whose file
is not among the sources; as `RepeatMin()`, on the field `repeatMax`. -/
def Structure.RepeatMax (h : Heap) : Nat → Nat → Res Reference
  | 0, _ => .outOfFuel
  | fuel + 1, a =>
    if (h.structures a).repeats.repeatMax ≠ "" then .val (h.structures a).repeats.repeatMax
    else
      match (h.structures a).extends_ with
      | some e => Structure.RepeatMax h fuel e
      | none => .val "1"

/-- Modelled from the spec: the generated getter `FillColour()` of a Structure, whose
file is not among the sources.  By the resolver of §4.1 a locally set fill colour (a
non-nil pointer) is returned, else the extended Structure answers, else the static
default `White` is returned (§3, Colourful); a colour is never inherited from the parent,
as the tags `default:"White" dereference:"true" parent:"false"` of the field say. -/
def Structure.FillColour (h : Heap) : Nat → Nat → Res Colour
  | 0, _ => .outOfFuel
  | fuel + 1, a =>
    match (h.structures a).colourful.fillColour with
    | some c => .val c
    | none =>
      match (h.structures a).extends_ with
      | some e => Structure.FillColour h fuel e
      | none => .val White

/-- Modelled from the spec: the generated getter `StrokeColour()` of a Structure, whose
file is not among the sources; as `FillColour()`, on the field `strokeColour` with the
static default `Black`. -/
def Structure.StrokeColour (h : Heap) : Nat → Nat → Res Colour
  | 0, _ => .outOfFuel
  | fuel + 1, a =>
    match (h.structures a).colourful.strokeColour with
    | some c => .val c
    | none =>
      match (h.structures a).extends_ with
      | some e => Structure.StrokeColour h fuel e
      | none => .val Black

/-! ## Example heap for children, repeat bounds and colours -/

/-- A second heap for the examples.  Structure 0 has the children `a`, `b`, `a` (the
Numbers 0, 1, 2), extends Structure 1 and sits inside Structure 2; Structure 1 has the
children `b`, `c` (the Numbers 3, 4); Structure 2 has repeat bounds 3 and 5 and colours
of its own; Structure 3 sits inside 2 and has a stroke colour only; Structure 4 sits
inside 2 and has nothing set. -/
def lookupHeap : Heap where
  structures := fun a =>
    match a with
    | 0 => { base := { name := "Child" }, extends_ := some 1, parent := some 2,
             elements := [.number 0, .number 1, .number 2] }
    | 1 => { base := { name := "Super" }, elements := [.number 3, .number 4] }
    | 2 => { repeats := { repeatMin := "3", repeatMax := "5" },
             colourful := { fillColour := some 0xff0000, strokeColour := some 0x00ff00 } }
    | 3 => { parent := some 2, colourful := { strokeColour := some 0x0000ff } }
    | 4 => { parent := some 2 }
    | _ => {}
  numbers := fun a =>
    match a with
    | 0 => { base := { name := "a" } }
    | 1 => { base := { name := "b" } }
    | 2 => { base := { name := "a" } }
    | 3 => { base := { name := "b" } }
    | 4 => { base := { name := "c" } }
    | _ => {}

/-! ## Unfolding and fuel lemmas -/

theorem structure_signed_succ (h : Heap) (fuel a : Nat) :
    Structure.Signed h (fuel + 1) a =
      if (h.structures a).signed ≠ TriBool.UnknownBool then (h.structures a).signed.bool
      else match (h.structures a).extends_ with
        | some e => Structure.Signed h fuel e
        | none =>
          match (h.structures a).parent with
          | some p => Structure.Signed h fuel p
          | none => .val true := rfl

theorem number_signed_succ (h : Heap) (fuel a : Nat) :
    Number.Signed h (fuel + 1) a =
      if (h.numbers a).signed ≠ TriBool.UnknownBool then (h.numbers a).signed.bool
      else match (h.numbers a).extends_ with
        | some e => Number.Signed h fuel e
        | none =>
          match (h.numbers a).parent with
          | some p => Structure.Signed h fuel p
          | none => .val true := rfl

theorem TriBool.bool_ne_outOfFuel (b : TriBool) : b.bool ≠ Res.outOfFuel := by
  unfold TriBool.bool
  split_ifs <;> simp

/-- One more unit of fuel does not change the outcome of a call that terminated. -/
theorem structure_signed_fuel_succ (h : Heap) (fuel : Nat) :
    ∀ a, Structure.Signed h fuel a ≠ .outOfFuel →
      Structure.Signed h (fuel + 1) a = Structure.Signed h fuel a := by
  induction fuel with
  | zero => intro a hne; exact absurd rfl hne
  | succ k ih =>
    intro a hne
    rw [structure_signed_succ h (k + 1) a]
    rw [structure_signed_succ h k a] at hne ⊢
    by_cases hs : (h.structures a).signed ≠ TriBool.UnknownBool
    · simp only [if_pos hs]
    · simp only [if_neg hs] at hne ⊢
      cases he : (h.structures a).extends_ with
      | some e => simp only [he] at hne ⊢; exact ih e hne
      | none =>
        simp only [he] at hne ⊢
        cases hp : (h.structures a).parent with
        | some p => simp only [hp] at hne ⊢; exact ih p hne
        | none => rfl

theorem structure_signed_fuel_add (h : Heap) (fuel a : Nat)
    (hne : Structure.Signed h fuel a ≠ .outOfFuel) (k : Nat) :
    Structure.Signed h (fuel + k) a = Structure.Signed h fuel a := by
  induction k with
  | zero => rfl
  | succ k ih =>
    rw [← Nat.add_assoc, structure_signed_fuel_succ h (fuel + k) a (by rw [ih]; exact hne), ih]

theorem structure_signed_fuel_le (h : Heap) (fuel fuel2 a : Nat) (hle : fuel ≤ fuel2)
    (hne : Structure.Signed h fuel a ≠ .outOfFuel) :
    Structure.Signed h fuel2 a = Structure.Signed h fuel a := by
  obtain ⟨k, rfl⟩ := Nat.exists_eq_add_of_le hle
  exact structure_signed_fuel_add h fuel a hne k

theorem number_signed_fuel_succ (h : Heap) (fuel : Nat) :
    ∀ a, Number.Signed h fuel a ≠ .outOfFuel →
      Number.Signed h (fuel + 1) a = Number.Signed h fuel a := by
  induction fuel with
  | zero => intro a hne; exact absurd rfl hne
  | succ k ih =>
    intro a hne
    rw [number_signed_succ h (k + 1) a]
    rw [number_signed_succ h k a] at hne ⊢
    by_cases hs : (h.numbers a).signed ≠ TriBool.UnknownBool
    · simp only [if_pos hs]
    · simp only [if_neg hs] at hne ⊢
      cases he : (h.numbers a).extends_ with
      | some e => simp only [he] at hne ⊢; exact ih e hne
      | none =>
        simp only [he] at hne ⊢
        cases hp : (h.numbers a).parent with
        | some p => simp only [hp] at hne ⊢; exact structure_signed_fuel_succ h k p hne
        | none => rfl

theorem number_signed_fuel_add (h : Heap) (fuel a : Nat)
    (hne : Number.Signed h fuel a ≠ .outOfFuel) (k : Nat) :
    Number.Signed h (fuel + k) a = Number.Signed h fuel a := by
  induction k with
  | zero => rfl
  | succ k ih =>
    rw [← Nat.add_assoc, number_signed_fuel_succ h (fuel + k) a (by rw [ih]; exact hne), ih]

/-- Two calls related by one stack frame terminate with the same outcomes. -/
theorem returns_of_step {α : Type} (f g : Nat → Res α)
    (hstep : ∀ fuel, f (fuel + 1) = g fuel) (hzero : f 0 = .outOfFuel) (r : Res α) :
    Returns f r ↔ Returns g r := by
  constructor
  · rintro ⟨hr, fuel, hf⟩
    refine ⟨hr, ?_⟩
    cases fuel with
    | zero => rw [hzero] at hf; exact absurd hf.symm hr
    | succ k => exact ⟨k, by rw [← hstep k, hf]⟩
  · rintro ⟨hr, fuel, hg⟩
    exact ⟨hr, fuel + 1, by rw [hstep fuel, hg]⟩

/-- A Structure whose `signed` is unset and which has an `extends` pointer resolves its
signedness without reading its own `parent` pointer: no call on the heap changes when that
pointer does. -/
theorem structure_signed_withStructureParent (h : Heap) (e p : Nat) (q : Ptr)
    (hs : (h.structures e).signed = TriBool.UnknownBool)
    (he : (h.structures e).extends_ = some p) (fuel : Nat) :
    ∀ x, Structure.Signed (h.withStructureParent e q) fuel x = Structure.Signed h fuel x := by
  induction fuel with
  | zero => intro x; rfl
  | succ k ih =>
    intro x
    rw [structure_signed_succ, structure_signed_succ]
    by_cases hx : x = e
    · subst hx
      have h1 : ((h.withStructureParent x q).structures x).signed = TriBool.UnknownBool := by
        simp [Heap.withStructureParent, hs]
      have h2 : ((h.withStructureParent x q).structures x).extends_ = some p := by
        simp [Heap.withStructureParent, he]
      simp only [h1, h2, hs, he, ne_eq, not_true_eq_false, if_false]
      exact ih p
    · have h1 : (h.withStructureParent e q).structures x = h.structures x := by
        simp [Heap.withStructureParent, hx]
      rw [h1]
      by_cases hsx : (h.structures x).signed ≠ TriBool.UnknownBool
      · simp only [if_pos hsx]
      · simp only [if_neg hsx]
        cases (h.structures x).extends_ with
        | some e2 => exact ih e2
        | none =>
          cases (h.structures x).parent with
          | some p2 => exact ih p2
          | none => rfl

theorem structure_signed_withNumberParent (h : Heap) (e : Nat) (q : Ptr) (fuel : Nat) :
    ∀ x, Structure.Signed (h.withNumberParent e q) fuel x = Structure.Signed h fuel x := by
  induction fuel with
  | zero => intro x; rfl
  | succ k ih =>
    intro x
    rw [structure_signed_succ, structure_signed_succ]
    have h1 : (h.withNumberParent e q).structures x = h.structures x := rfl
    rw [h1]
    by_cases hsx : (h.structures x).signed ≠ TriBool.UnknownBool
    · simp only [if_pos hsx]
    · simp only [if_neg hsx]
      cases (h.structures x).extends_ with
      | some e2 => exact ih e2
      | none =>
        cases (h.structures x).parent with
        | some p2 => exact ih p2
        | none => rfl

/-- A Number whose `signed` is unset and which has an `extends` pointer resolves its
signedness without reading its own `parent` pointer. -/
theorem number_signed_withNumberParent (h : Heap) (e p : Nat) (q : Ptr)
    (hs : (h.numbers e).signed = TriBool.UnknownBool)
    (he : (h.numbers e).extends_ = some p) (fuel : Nat) :
    ∀ x, Number.Signed (h.withNumberParent e q) fuel x = Number.Signed h fuel x := by
  induction fuel with
  | zero => intro x; rfl
  | succ k ih =>
    intro x
    rw [number_signed_succ, number_signed_succ]
    by_cases hx : x = e
    · subst hx
      have h1 : ((h.withNumberParent x q).numbers x).signed = TriBool.UnknownBool := by
        simp [Heap.withNumberParent, hs]
      have h2 : ((h.withNumberParent x q).numbers x).extends_ = some p := by
        simp [Heap.withNumberParent, he]
      simp only [h1, h2, hs, he, ne_eq, not_true_eq_false, if_false]
      exact ih p
    · have h1 : (h.withNumberParent e q).numbers x = h.numbers x := by
        simp [Heap.withNumberParent, hx]
      rw [h1]
      by_cases hsx : (h.numbers x).signed ≠ TriBool.UnknownBool
      · simp only [if_pos hsx]
      · simp only [if_neg hsx]
        cases (h.numbers x).extends_ with
        | some e2 => exact ih e2
        | none =>
          cases (h.numbers x).parent with
          | some p2 => exact structure_signed_withNumberParent h e q k p2
          | none => rfl

theorem structure_signed_of_extends (h : Heap) (e p : Nat)
    (hs : (h.structures e).signed = TriBool.UnknownBool)
    (he : (h.structures e).extends_ = some p) (fuel : Nat) :
    Structure.Signed h (fuel + 1) e = Structure.Signed h fuel p := by
  rw [structure_signed_succ]; simp [hs, he]

theorem number_signed_of_extends (h : Heap) (e p : Nat)
    (hs : (h.numbers e).signed = TriBool.UnknownBool)
    (he : (h.numbers e).extends_ = some p) (fuel : Nat) :
    Number.Signed h (fuel + 1) e = Number.Signed h fuel p := by
  rw [number_signed_succ]; simp [hs, he]

theorem structure_signed_of_parent (h : Heap) (e q : Nat)
    (hs : (h.structures e).signed = TriBool.UnknownBool)
    (he : (h.structures e).extends_ = none) (hp : (h.structures e).parent = some q)
    (fuel : Nat) :
    Structure.Signed h (fuel + 1) e = Structure.Signed h fuel q := by
  rw [structure_signed_succ]; simp [hs, he, hp]

theorem number_signed_of_parent (h : Heap) (e q : Nat)
    (hs : (h.numbers e).signed = TriBool.UnknownBool)
    (he : (h.numbers e).extends_ = none) (hp : (h.numbers e).parent = some q)
    (fuel : Nat) :
    Number.Signed h (fuel + 1) e = Structure.Signed h fuel q := by
  rw [number_signed_succ]; simp [hs, he, hp]

theorem structure_signed_chain (h : Heap) (l : List Nat) :
    ∀ e, Structure.UnsetChain h e l → ∀ fuel,
      Structure.Signed h (fuel + l.length) e = Structure.Signed h fuel (l.getLastD e) := by
  induction l with
  | nil => intro e _ fuel; rfl
  | cons p rest ih =>
    intro e hc fuel
    obtain ⟨hs, he, hrest⟩ := hc
    have h1 : fuel + (p :: rest).length = (fuel + rest.length) + 1 := by
      simp [Nat.add_assoc]
    rw [h1, structure_signed_of_extends h e p hs he, ih p hrest fuel]
    cases rest <;> rfl

theorem number_signed_chain (h : Heap) (l : List Nat) :
    ∀ e, Number.UnsetChain h e l → ∀ fuel,
      Number.Signed h (fuel + l.length) e = Number.Signed h fuel (l.getLastD e) := by
  induction l with
  | nil => intro e _ fuel; rfl
  | cons p rest ih =>
    intro e hc fuel
    obtain ⟨hs, he, hrest⟩ := hc
    have h1 : fuel + (p :: rest).length = (fuel + rest.length) + 1 := by
      simp [Nat.add_assoc]
    rw [h1, number_signed_of_extends h e p hs he, ih p hrest fuel]
    cases rest <;> rfl

theorem structure_returns_of_extends (h : Heap) (e p : Nat)
    (hs : (h.structures e).signed = TriBool.UnknownBool)
    (he : (h.structures e).extends_ = some p) (r : Res Bool) :
    Returns (fun fuel => Structure.Signed h fuel e) r ↔
      Returns (fun fuel => Structure.Signed h fuel p) r :=
  returns_of_step _ _ (structure_signed_of_extends h e p hs he) rfl r

theorem number_returns_of_extends (h : Heap) (e p : Nat)
    (hs : (h.numbers e).signed = TriBool.UnknownBool)
    (he : (h.numbers e).extends_ = some p) (r : Res Bool) :
    Returns (fun fuel => Number.Signed h fuel e) r ↔
      Returns (fun fuel => Number.Signed h fuel p) r :=
  returns_of_step _ _ (number_signed_of_extends h e p hs he) rfl r

theorem structure_returns_chain (h : Heap) (l : List Nat) :
    ∀ e, Structure.UnsetChain h e l → ∀ r,
      (Returns (fun fuel => Structure.Signed h fuel e) r ↔
        Returns (fun fuel => Structure.Signed h fuel (l.getLastD e)) r) := by
  induction l with
  | nil => intro e _ r; exact Iff.rfl
  | cons p rest ih =>
    intro e hc r
    obtain ⟨hs, he, hrest⟩ := hc
    have hlast : (p :: rest).getLastD e = rest.getLastD p := by cases rest <;> rfl
    rw [hlast]
    exact (structure_returns_of_extends h e p hs he r).trans (ih p hrest r)

theorem number_returns_chain (h : Heap) (l : List Nat) :
    ∀ e, Number.UnsetChain h e l → ∀ r,
      (Returns (fun fuel => Number.Signed h fuel e) r ↔
        Returns (fun fuel => Number.Signed h fuel (l.getLastD e)) r) := by
  induction l with
  | nil => intro e _ r; exact Iff.rfl
  | cons p rest ih =>
    intro e hc r
    obtain ⟨hs, he, hrest⟩ := hc
    have hlast : (p :: rest).getLastD e = rest.getLastD p := by cases rest <;> rfl
    rw [hlast]
    exact (number_returns_of_extends h e p hs he r).trans (ih p hrest r)

/-! ## Lemmas on the decode protocol -/

theorem readChildren_offset_le
    (rd : Element → List Value → Decoder → Except ReadError (Value × Decoder))
    (hrd : LeavesAtEnd rd) (limit : Option Nat) (scope : List Value) (cs : List Element) :
    ∀ vs d vs2 d2, readChildren rd limit scope cs vs d = .ok (vs2, d2) →
      d.offset ≤ d2.offset := by
  induction cs with
  | nil =>
    intro vs d vs2 d2 hr
    simp only [readChildren, Except.ok.injEq, Prod.mk.injEq] at hr
    rw [← hr.2]
  | cons c cs ih =>
    intro vs d vs2 d2 hr
    simp only [readChildren] at hr
    split at hr
    · simp only [Except.ok.injEq, Prod.mk.injEq] at hr
      rw [← hr.2]
    · split at hr
      · exact absurd hr (by simp)
      · rename_i v d1 hc
        have h1 := hrd c _ d v d1 hc
        have h2 := ih _ d1 vs2 d2 hr
        omega

theorem readRepetitions_offset_le
    (rd : Element → List Value → Decoder → Except ReadError (Value × Decoder))
    (hrd : LeavesAtEnd rd) (limit : Option Nat) (scope : List Value)
    (children : List Value → List Element) (n : Nat) :
    ∀ vs d vs2 d2, readRepetitions rd limit scope children n vs d = .ok (vs2, d2) →
      d.offset ≤ d2.offset := by
  induction n with
  | zero =>
    intro vs d vs2 d2 hr
    simp only [readRepetitions, Except.ok.injEq, Prod.mk.injEq] at hr
    rw [← hr.2]
  | succ n ih =>
    intro vs d vs2 d2 hr
    simp only [readRepetitions] at hr
    split at hr
    · exact absurd hr (by simp)
    · rename_i vs1 d1 hc
      have h1 := readChildren_offset_le rd hrd limit scope _ vs d vs1 d1 hc
      have h2 := ih vs1 d1 vs2 d2 hr
      omega

theorem trimAt_ge (len : Option Nat) (start stop : Nat) (hle : start ≤ stop) :
    start ≤ trimAt (len.map (start + ·)) stop := by
  cases len with
  | none => exact hle
  | some l => simp only [Option.map, trimAt]; omega

theorem recordLineage_Offset (r : Element) (v : Value) :
    (v.recordLineage r).Offset = v.Offset := by
  cases v; rfl

theorem recordLineage_Len (r : Element) (v : Value) :
    (v.recordLineage r).Len = v.Len := by
  cases v; rfl

theorem read_scalar_leavesAtEnd (C : Collaborators) (h : Heap) (e : Element)
    (s : List Value) (d : Decoder) (v : Value) (d2 : Decoder)
    (hr : (match C.byteLength h e s with
      | Except.error err => Except.error err
      | Except.ok n =>
        match d.ReadBytes d.offset n with
        | Except.error err => Except.error err
        | Except.ok bytes =>
          (Except.ok (Value.mk d.offset n e [] (C.mismatch h e bytes) [], d.Advance n) :
            Except ReadError (Value × Decoder))) = Except.ok (v, d2)) :
    d2.offset = v.Offset + v.Len ∧ v.Offset = d.offset := by
  split at hr
  · exact absurd hr (by simp)
  · split at hr
    · exact absurd hr (by simp)
    · simp only [Except.ok.injEq, Prod.mk.injEq] at hr
      obtain ⟨rfl, rfl⟩ := hr
      exact ⟨rfl, rfl⟩

theorem read_scripted_leavesAtEnd (C : Collaborators) (h : Heap) (e : Element)
    (d : Decoder) (v : Value) (d2 : Decoder)
    (hr : (match C.scriptLength h e d with
      | Except.error err => Except.error err
      | Except.ok n =>
        (Except.ok (Value.mk d.offset n e [] false [], d.Advance n) :
          Except ReadError (Value × Decoder))) = Except.ok (v, d2)) :
    d2.offset = v.Offset + v.Len ∧ v.Offset = d.offset := by
  split at hr
  · exact absurd hr (by simp)
  · simp only [Except.ok.injEq, Prod.mk.injEq] at hr
    obtain ⟨rfl, rfl⟩ := hr
    exact ⟨rfl, rfl⟩

theorem read_reference_leavesAtEnd
    (rd : Element → List Value → Decoder → Except ReadError (Value × Decoder))
    (hrd : LeavesAtEnd rd) (e target : Element) (s : List Value) (d : Decoder) (v : Value)
    (d2 : Decoder)
    (hr : (match rd target s d with
      | Except.error err => Except.error err
      | Except.ok (v1, d1) =>
        (Except.ok (v1.recordLineage e, d1) : Except ReadError (Value × Decoder))) =
        Except.ok (v, d2)) :
    d2.offset = v.Offset + v.Len ∧ v.Offset = d.offset := by
  split at hr
  · exact absurd hr (by simp)
  · rename_i v1 d1 hc
    simp only [Except.ok.injEq, Prod.mk.injEq] at hr
    obtain ⟨rfl, rfl⟩ := hr
    rw [recordLineage_Offset, recordLineage_Len]
    exact hrd target s d v1 d1 hc

theorem read_leavesAtEnd (G : Getters) (C : Collaborators) (h : Heap) (fuel : Nat) :
    LeavesAtEnd (Read G C h fuel) := by
  induction fuel with
  | zero => intro c s d v d2 hr; exact absurd hr (by simp [Read])
  | succ k ih =>
    intro c s d v d2 hr
    rcases c with _ | a | a | a | a | a | a | a | a | a | a | a
    · -- nil
      exact absurd hr (by simp [Read])
    · -- Grammar
      exact ih _ s d v d2 (by simpa only [Read] using hr)
    · -- Structure
      simp only [Read] at hr
      split at hr
      · exact absurd hr (by simp)
      · split at hr
        · exact absurd hr (by simp)
        · split at hr
          · exact absurd hr (by simp)
          · rename_i len _ _ vs d1 hc
            have hle := readRepetitions_offset_le _ ih _ s _ _ [] d vs d1 hc
            have hge := trimAt_ge len d.offset d1.offset hle
            simp only [Except.ok.injEq, Prod.mk.injEq] at hr
            obtain ⟨rfl, rfl⟩ := hr
            refine ⟨?_, rfl⟩
            show trimAt (len.map (d.offset + ·)) d1.offset =
              d.offset + (trimAt (len.map (d.offset + ·)) d1.offset - d.offset)
            omega
    · -- GrammarRef
      simp only [Read] at hr
      split at hr
      · exact read_reference_leavesAtEnd _ ih _ _ s d v d2 hr
      all_goals exact absurd hr (by simp)
    · -- Custom
      exact read_scripted_leavesAtEnd C h _ d v d2 (by simpa only [Read] using hr)
    · -- StructRef
      simp only [Read] at hr
      split at hr
      · exact read_reference_leavesAtEnd _ ih _ _ s d v d2 hr
      all_goals exact absurd hr (by simp)
    · -- String
      exact read_scalar_leavesAtEnd C h _ s d v d2 (by simpa only [Read] using hr)
    · -- Binary
      exact read_scalar_leavesAtEnd C h _ s d v d2 (by simpa only [Read] using hr)
    · -- Number
      exact read_scalar_leavesAtEnd C h _ s d v d2 (by simpa only [Read] using hr)
    · -- Offset
      exact read_scalar_leavesAtEnd C h _ s d v d2 (by simpa only [Read] using hr)
    · -- ScriptElement
      exact read_scripted_leavesAtEnd C h _ d v d2 (by simpa only [Read] using hr)
    · -- Padding
      simp only [Read, Except.ok.injEq, Prod.mk.injEq] at hr
      obtain ⟨rfl, rfl⟩ := hr
      exact ⟨rfl, rfl⟩

/-! ## Lemmas on children by name -/

theorem element_name_of_ne_nil (h : Heap) (e : Element) (hne : e ≠ Element.nil) :
    ∃ n, Element.Name h e = .val n := by
  cases e <;> first | exact absurd rfl hne | exact ⟨_, rfl⟩

theorem element_ne_nil_of_name (h : Heap) (e : Element) (n : String)
    (hn : Element.Name h e = .val n) : e ≠ Element.nil := by
  intro he
  rw [he] at hn
  exact absurd hn (by simp [Element.Name])

theorem findFrom_cons_hit (h : Heap) (name : String) (e : Element) (rest : List Element)
    (k : Int) (hn : Element.Name h e = .val name) :
    Elements.FindFrom h name (e :: rest) k = .val (k, e) := by
  simp [Elements.FindFrom, hn]

theorem findFrom_cons_miss (h : Heap) (name : String) (e : Element) (rest : List Element)
    (k : Int) (hne : e ≠ Element.nil) (hn : Element.Name h e ≠ .val name) :
    Elements.FindFrom h name (e :: rest) k = Elements.FindFrom h name rest (k + 1) := by
  obtain ⟨n, hv⟩ := element_name_of_ne_nil h e hne
  have hnn : n ≠ name := by
    intro heq
    rw [heq] at hv
    exact hn hv
  simp [Elements.FindFrom, hv, hnn]

/-- On a list without nil entries the loop of `Find` either stops at the first element
called `name`, or finds none and returns `(-1, nil)`. -/
theorem findFrom_spec (h : Heap) (name : String) (es : List Element) :
    ∀ k : Int, (∀ e ∈ es, e ≠ Element.nil) →
      (∃ (i : Nat) (e : Element), es[i]? = some e ∧ Element.Name h e = .val name ∧
          (∀ (j : Nat) (e2 : Element), j < i → es[j]? = some e2 →
            Element.Name h e2 ≠ .val name) ∧
          Elements.FindFrom h name es k = .val (k + (i : Int), e)) ∨
      ((∀ e ∈ es, Element.Name h e ≠ .val name) ∧
          Elements.FindFrom h name es k = .val (-1, Element.nil)) := by
  induction es with
  | nil =>
    intro k _
    exact Or.inr ⟨fun e he => absurd he (List.not_mem_nil e), rfl⟩
  | cons x rest ih =>
    intro k hnn
    by_cases hx : Element.Name h x = .val name
    · refine Or.inl ⟨0, x, by simp, hx, ?_, ?_⟩
      · intro j e2 hj; exact absurd hj (Nat.not_lt_zero j)
      · rw [findFrom_cons_hit h name x rest k hx]; simp
    · have hxn : x ≠ Element.nil := hnn x (List.mem_cons_self x rest)
      have hrest : ∀ e ∈ rest, e ≠ Element.nil :=
        fun e he => hnn e (List.mem_cons_of_mem x he)
      rw [findFrom_cons_miss h name x rest k hxn hx]
      rcases ih (k + 1) hrest with ⟨i, e, hi, hn, hfirst, hres⟩ | ⟨hnone, hres⟩
      · refine Or.inl ⟨i + 1, e, by simpa using hi, hn, ?_, ?_⟩
        · intro j e2 hj hj2
          cases j with
          | zero =>
            simp only [List.getElem?_cons_zero, Option.some.injEq] at hj2
            rw [← hj2]; exact hx
          | succ j =>
            simp only [List.getElem?_cons_succ] at hj2
            exact hfirst j e2 (Nat.lt_of_succ_lt_succ hj) hj2
        · rw [hres]
          have : k + 1 + (i : Int) = k + ((i + 1 : Nat) : Int) := by push_cast; ring
          rw [this]
      · refine Or.inr ⟨?_, hres⟩
        intro e he
        rcases List.mem_cons.mp he with rfl | he
        · exact hx
        · exact hnone e he

theorem find_of_first (h : Heap) (name : String) (es : List Element)
    (hnn : ∀ e ∈ es, e ≠ Element.nil) (i : Nat) (e : Element) (hi : es[i]? = some e)
    (hn : Element.Name h e = .val name)
    (hfirst : ∀ (j : Nat) (e2 : Element), j < i → es[j]? = some e2 →
      Element.Name h e2 ≠ .val name) :
    Elements.Find h es name = .val ((i : Int), e) := by
  rcases findFrom_spec h name es 0 hnn with ⟨i2, e2, hi2, hn2, hfirst2, hres⟩ | ⟨hnone, _⟩
  · rcases Nat.lt_trichotomy i i2 with hlt | heq | hgt
    · exact absurd hn (hfirst2 i e hlt hi)
    · subst heq
      rw [hi] at hi2
      simp only [Option.some.injEq] at hi2
      subst hi2
      simpa [Elements.Find] using hres
    · exact absurd hn2 (hfirst i2 e2 hgt hi2)
  · exact absurd hn (hnone e (List.getElem?_mem hi))

theorem find_of_none (h : Heap) (name : String) (es : List Element)
    (hnn : ∀ e ∈ es, e ≠ Element.nil)
    (hnone : ∀ e ∈ es, Element.Name h e ≠ .val name) :
    Elements.Find h es name = .val (-1, Element.nil) := by
  rcases findFrom_spec h name es 0 hnn with ⟨i2, e2, hi2, hn2, _, _⟩ | ⟨_, hres⟩
  · exact absurd hn2 (hnone e2 (List.getElem?_mem hi2))
  · exact hres

theorem elementByName_succ (h : Heap) (name : String) (fuel a : Nat) :
    Structure.ElementByName h name (fuel + 1) a =
      match Elements.Find h (h.structures a).elements name with
      | .val (_, e) =>
        if e ≠ .nil then .val e
        else
          match (h.structures a).extends_ with
          | some x => Structure.ElementByName h name fuel x
          | none => .val .nil
      | .panic msg => .panic msg
      | .outOfFuel => .outOfFuel := rfl

theorem elementByName_of_first (h : Heap) (name : String) (a : Nat)
    (hnn : Structure.ChildrenPresent h a) (i : Nat) (e : Element)
    (hi : (h.structures a).elements[i]? = some e) (hn : Element.Name h e = .val name)
    (hfirst : ∀ (j : Nat) (e2 : Element), j < i → (h.structures a).elements[j]? = some e2 →
      Element.Name h e2 ≠ .val name) (fuel : Nat) :
    Structure.ElementByName h name (fuel + 1) a = .val e := by
  rw [elementByName_succ, find_of_first h name _ hnn i e hi hn hfirst]
  simp [element_ne_nil_of_name h e name hn]

theorem elementByName_of_none (h : Heap) (name : String) (a : Nat)
    (hnn : Structure.ChildrenPresent h a)
    (hnone : ∀ e ∈ (h.structures a).elements, Element.Name h e ≠ .val name) (fuel : Nat) :
    Structure.ElementByName h name (fuel + 1) a =
      match (h.structures a).extends_ with
      | some x => Structure.ElementByName h name fuel x
      | none => .val .nil := by
  rw [elementByName_succ, find_of_none h name _ hnn hnone]
  simp

/-- A Structure whose children are all present either has a first child called `name`, or
has no child of that name. -/
theorem first_child_or_none (h : Heap) (name : String) (es : List Element)
    (hnn : ∀ e ∈ es, e ≠ Element.nil) :
    (∃ (i : Nat) (e : Element), es[i]? = some e ∧ Element.Name h e = .val name ∧
        (∀ (j : Nat) (e2 : Element), j < i → es[j]? = some e2 →
          Element.Name h e2 ≠ .val name)) ∨
    (∀ e ∈ es, Element.Name h e ≠ .val name) := by
  rcases findFrom_spec h name es 0 hnn with ⟨i, e, hi, hn, hfirst, _⟩ | ⟨hnone, _⟩
  · exact Or.inl ⟨i, e, hi, hn, hfirst⟩
  · exact Or.inr hnone

theorem elementByName_chain (h : Heap) (name : String) (l : List Nat) :
    ∀ s, Structure.ExtendsChain h s l → (∀ a ∈ s :: l, Structure.ChildrenPresent h a) →
      ∃ r, (∀ fuel, l.length + 1 ≤ fuel → Structure.ElementByName h name fuel s = .val r) ∧
        (r = Element.nil ↔ ∀ a ∈ s :: l, ¬ Structure.HasChildNamed h name a) ∧
        (r ≠ Element.nil → Element.Name h r = .val name ∧
          ∃ a ∈ s :: l, r ∈ (h.structures a).elements) := by
  induction l with
  | nil =>
    intro s hchain hnn
    have hs := hnn s (List.mem_cons_self s [])
    rcases first_child_or_none h name _ hs with ⟨i, e, hi, hn, hfirst⟩ | hnone
    · refine ⟨e, ?_, ?_, ?_⟩
      · intro fuel hf
        obtain ⟨k, rfl⟩ := Nat.exists_eq_add_of_le hf
        have : ([] : List Nat).length + 1 + k = k + 1 := by simp [Nat.add_comm]
        rw [this]
        exact elementByName_of_first h name s hs i e hi hn hfirst _
      · constructor
        · intro he; exact absurd he (element_ne_nil_of_name h e name hn)
        · intro hall
          exact absurd ⟨e, List.getElem?_mem hi, hn⟩ (hall s (List.mem_cons_self s []))
      · intro _
        exact ⟨hn, s, List.mem_cons_self s [], List.getElem?_mem hi⟩
    · refine ⟨Element.nil, ?_, ?_, ?_⟩
      · intro fuel hf
        obtain ⟨k, rfl⟩ := Nat.exists_eq_add_of_le hf
        have : ([] : List Nat).length + 1 + k = k + 1 := by simp [Nat.add_comm]
        rw [this, elementByName_of_none h name s hs hnone]
        have hc : (h.structures s).extends_ = none := hchain
        rw [hc]
      · constructor
        · intro _ a ha
          rcases List.mem_singleton.mp ha with rfl
          rintro ⟨e, he, hn⟩
          exact hnone e he hn
        · intro _; rfl
      · intro hne; exact absurd rfl hne
  | cons b rest ih =>
    intro s hchain hnn
    obtain ⟨hext, hrest⟩ := hchain
    have hs := hnn s (List.mem_cons_self s _)
    rcases first_child_or_none h name _ hs with ⟨i, e, hi, hn, hfirst⟩ | hnone
    · refine ⟨e, ?_, ?_, ?_⟩
      · intro fuel hf
        obtain ⟨k, rfl⟩ := Nat.exists_eq_add_of_le hf
        have : (b :: rest).length + 1 + k = ((b :: rest).length + k) + 1 := by omega
        rw [this]
        exact elementByName_of_first h name s hs i e hi hn hfirst _
      · constructor
        · intro he; exact absurd he (element_ne_nil_of_name h e name hn)
        · intro hall
          exact absurd ⟨e, List.getElem?_mem hi, hn⟩ (hall s (List.mem_cons_self s _))
      · intro _
        exact ⟨hn, s, List.mem_cons_self s _, List.getElem?_mem hi⟩
    · obtain ⟨r, hr1, hr2, hr3⟩ := ih b hrest (fun a ha => hnn a (List.mem_cons_of_mem s ha))
      refine ⟨r, ?_, ?_, ?_⟩
      · intro fuel hf
        obtain ⟨k, rfl⟩ := Nat.exists_eq_add_of_le hf
        have : (b :: rest).length + 1 + k = (rest.length + 1 + k) + 1 := by
          simp only [List.length_cons]; omega
        rw [this, elementByName_of_none h name s hs hnone, hext]
        exact hr1 _ (by omega)
      · constructor
        · intro hnil a ha
          rcases List.mem_cons.mp ha with rfl | ha
          · rintro ⟨e, he, hn⟩
            exact hnone e he hn
          · exact hr2.mp hnil a ha
        · intro hall
          exact hr2.mpr (fun a ha => hall a (List.mem_cons_of_mem s ha))
      · intro hne
        obtain ⟨hn, a, ha, hmem⟩ := hr3 hne
        exact ⟨hn, a, List.mem_cons_of_mem s ha, hmem⟩

/-- Whatever the list holds, a result of the loop of `Find` is either the first element
called `name` with its index, or `(-1, nil)` when no element is called `name`. -/
theorem findFrom_returns (h : Heap) (name : String) (es : List Element) :
    ∀ (k i : Int) (e : Element), Elements.FindFrom h name es k = .val (i, e) →
      (∃ n : Nat, i = k + (n : Int) ∧ es[n]? = some e ∧ e ≠ Element.nil ∧
        Element.Name h e = .val name ∧
        (∀ (j : Nat) (e2 : Element), j < n → es[j]? = some e2 →
          Element.Name h e2 ≠ .val name)) ∨
      (i = -1 ∧ e = Element.nil ∧ ∀ e2 ∈ es, Element.Name h e2 ≠ .val name) := by
  induction es with
  | nil =>
    intro k i e hr
    simp only [Elements.FindFrom, Res.val.injEq, Prod.mk.injEq] at hr
    exact Or.inr ⟨hr.1.symm, hr.2.symm, fun e2 he2 => absurd he2 (List.not_mem_nil e2)⟩
  | cons x rest ih =>
    intro k i e hr
    simp only [Elements.FindFrom] at hr
    split at hr
    · rename_i n hn
      split at hr
      · rename_i heq
        simp only [Res.val.injEq, Prod.mk.injEq] at hr
        obtain ⟨rfl, rfl⟩ := hr
        subst heq
        refine Or.inl ⟨0, by simp, by simp, element_ne_nil_of_name h _ _ hn, hn, ?_⟩
        intro j e2 hj
        exact absurd hj (Nat.not_lt_zero j)
      · rename_i hne
        have hx : Element.Name h x ≠ .val name := by
          rw [hn]
          intro hc
          exact hne (Res.val.inj hc)
        rcases ih (k + 1) i e hr with ⟨m, hi, hm, hnil, hname, hfirst⟩ | ⟨hi, he, hnone⟩
        · refine Or.inl ⟨m + 1, by rw [hi]; push_cast; ring, by simpa using hm, hnil, hname,
            ?_⟩
          intro j e2 hj hj2
          cases j with
          | zero =>
            simp only [List.getElem?_cons_zero, Option.some.injEq] at hj2
            rw [← hj2]; exact hx
          | succ j =>
            simp only [List.getElem?_cons_succ] at hj2
            exact hfirst j e2 (Nat.lt_of_succ_lt_succ hj) hj2
        · refine Or.inr ⟨hi, he, ?_⟩
          intro e2 he2
          rcases List.mem_cons.mp he2 with rfl | he2
          · exact hx
          · exact hnone e2 he2
    · exact absurd hr (by simp)
    · exact absurd hr (by simp)

/-- Whatever the children are, a result of one call of `ElementByName` is either the
first own child called `name`, or, when no own child is called `name`, the result of the
call on the extended Structure, or nil when nothing is extended. -/
theorem elementByName_returns (h : Heap) (name : String) (fuel a : Nat) (r : Element)
    (hr : Structure.ElementByName h name (fuel + 1) a = .val r) :
    (∃ n : Nat, (h.structures a).elements[n]? = some r ∧ r ≠ Element.nil ∧
      Element.Name h r = .val name ∧
      (∀ (j : Nat) (e2 : Element), j < n → (h.structures a).elements[j]? = some e2 →
        Element.Name h e2 ≠ .val name)) ∨
    ((∀ e2 ∈ (h.structures a).elements, Element.Name h e2 ≠ .val name) ∧
      ((∃ E, (h.structures a).extends_ = some E ∧
          Structure.ElementByName h name fuel E = .val r) ∨
        ((h.structures a).extends_ = none ∧ r = Element.nil))) := by
  rw [elementByName_succ] at hr
  split at hr
  · rename_i i e hfind
    rcases findFrom_returns h name _ 0 i e hfind with
      ⟨n, _, hn, hnil, hname, hfirst⟩ | ⟨_, he, hnone⟩
    · rw [if_pos hnil] at hr
      have hre : e = r := Res.val.inj hr
      subst hre
      exact Or.inl ⟨n, hn, hnil, hname, hfirst⟩
    · rw [if_neg (by simp [he])] at hr
      refine Or.inr ⟨hnone, ?_⟩
      cases hext : (h.structures a).extends_ with
      | some E =>
        rw [hext] at hr
        exact Or.inl ⟨E, rfl, hr⟩
      | none =>
        rw [hext] at hr
        exact Or.inr ⟨rfl, (Res.val.inj hr).symm⟩
  · exact absurd hr (by simp)
  · exact absurd hr (by simp)

/-- Along a finite `extends` chain, whatever the children are, a result of
`ElementByName` is nil exactly when no Structure on the chain has a child called `name`,
and otherwise is such a child. -/
theorem elementByName_chain_returns (h : Heap) (name : String) (l : List Nat) :
    ∀ s, Structure.ExtendsChain h s l → ∀ fuel r,
      Structure.ElementByName h name fuel s = .val r →
        (r = Element.nil ↔ ∀ a ∈ s :: l, ¬ Structure.HasChildNamed h name a) ∧
        (r ≠ Element.nil → Element.Name h r = .val name ∧
          ∃ a ∈ s :: l, r ∈ (h.structures a).elements) := by
  induction l with
  | nil =>
    intro s hchain fuel r hr
    cases fuel with
    | zero => exact absurd hr (by simp [Structure.ElementByName])
    | succ fuel =>
      have hc : (h.structures s).extends_ = none := hchain
      rcases elementByName_returns h name fuel s r hr with
        ⟨n, hn, hnil, hname, _⟩ | ⟨hnone, ⟨E, hE, _⟩ | ⟨_, hrn⟩⟩
      · refine ⟨⟨fun he => absurd he hnil, fun hall => ?_⟩, fun _ => ?_⟩
        · exact absurd ⟨r, List.getElem?_mem hn, hname⟩ (hall s (List.mem_cons_self s []))
        · exact ⟨hname, s, List.mem_cons_self s [], List.getElem?_mem hn⟩
      · rw [hc] at hE; exact absurd hE (by simp)
      · refine ⟨⟨fun _ a ha => ?_, fun _ => hrn⟩, fun hne => absurd hrn hne⟩
        rcases List.mem_singleton.mp ha with rfl
        rintro ⟨e, he, hn⟩
        exact hnone e he hn
  | cons b rest ih =>
    intro s hchain fuel r hr
    obtain ⟨hext, hrest⟩ := hchain
    cases fuel with
    | zero => exact absurd hr (by simp [Structure.ElementByName])
    | succ fuel =>
      rcases elementByName_returns h name fuel s r hr with
        ⟨n, hn, hnil, hname, _⟩ | ⟨hnone, ⟨E, hE, hrE⟩ | ⟨hnoext, _⟩⟩
      · refine ⟨⟨fun he => absurd he hnil, fun hall => ?_⟩, fun _ => ?_⟩
        · exact absurd ⟨r, List.getElem?_mem hn, hname⟩ (hall s (List.mem_cons_self s _))
        · exact ⟨hname, s, List.mem_cons_self s _, List.getElem?_mem hn⟩
      · rw [hext] at hE
        have hEb : b = E := Option.some.inj hE
        subst hEb
        obtain ⟨h1, h2⟩ := ih b hrest fuel r hrE
        refine ⟨⟨fun hnil a ha => ?_, fun hall => ?_⟩, fun hne => ?_⟩
        · rcases List.mem_cons.mp ha with rfl | ha
          · rintro ⟨e, he, hn⟩
            exact hnone e he hn
          · exact h1.mp hnil a ha
        · exact h1.mpr (fun a ha => hall a (List.mem_cons_of_mem s ha))
        · obtain ⟨hn, a, ha, hmem⟩ := h2 hne
          exact ⟨hn, a, List.mem_cons_of_mem s ha, hmem⟩
      · rw [hext] at hnoext; exact absurd hnoext (by simp)

/-! ## Lemmas on well-formed elements -/

theorem structure_signed_total (h : Heap) (a : Nat) (hfin : Structure.FiniteChains h a) :
    (∀ b, Structure.Reaches h a b → (h.structures b).signed.Declared) →
      ∃ fuel v, Structure.Signed h fuel a = .val v := by
  induction hfin with
  | @mk a _ _ ihext ihpar =>
    intro hdecl
    by_cases hs : (h.structures a).signed = TriBool.UnknownBool
    · cases he : (h.structures a).extends_ with
      | some e =>
        obtain ⟨fuel, v, hv⟩ := ihext e he (fun b hb => hdecl b (.viaExtends he hb))
        exact ⟨fuel + 1, v, by rw [structure_signed_of_extends h a e hs he, hv]⟩
      | none =>
        cases hp : (h.structures a).parent with
        | some p =>
          obtain ⟨fuel, v, hv⟩ := ihpar p hp (fun b hb => hdecl b (.viaParent hp hb))
          exact ⟨fuel + 1, v, by rw [structure_signed_of_parent h a p hs he hp, hv]⟩
        | none =>
          exact ⟨1, true, by rw [structure_signed_succ]; simp [hs, he, hp]⟩
    · rcases hdecl a (.self a) with hu | hf | ht
      · exact absurd hu hs
      · exact ⟨1, false, by rw [structure_signed_succ, if_pos hs, hf]; rfl⟩
      · exact ⟨1, true, by rw [structure_signed_succ, if_pos hs, ht]; rfl⟩

theorem number_signed_total (h : Heap) (n : Nat) (hfin : Number.FiniteChains h n) :
    (∀ m, Number.ReachesNumber h n m → (h.numbers m).signed.Declared) →
    (∀ s, Number.ReachesStructure h n s → (h.structures s).signed.Declared) →
      ∃ fuel v, Number.Signed h fuel n = .val v := by
  induction hfin with
  | @mk n _ hpar ihext =>
    intro hdeclN hdeclS
    by_cases hs : (h.numbers n).signed = TriBool.UnknownBool
    · cases he : (h.numbers n).extends_ with
      | some e =>
        obtain ⟨fuel, v, hv⟩ := ihext e he (fun m hm => hdeclN m (.viaExtends he hm))
          (fun s hsr => by
            obtain ⟨m, p, hm, hp, hr⟩ := hsr
            exact hdeclS s ⟨m, p, .viaExtends he hm, hp, hr⟩)
        exact ⟨fuel + 1, v, by rw [number_signed_of_extends h n e hs he, hv]⟩
      | none =>
        cases hp : (h.numbers n).parent with
        | some p =>
          obtain ⟨fuel, v, hv⟩ := structure_signed_total h p (hpar p hp)
            (fun b hb => hdeclS b ⟨n, p, .self n, hp, hb⟩)
          exact ⟨fuel + 1, v, by rw [number_signed_of_parent h n p hs he hp, hv]⟩
        | none =>
          exact ⟨1, true, by rw [number_signed_succ]; simp [hs, he, hp]⟩
    · rcases hdeclN n (.self n) with hu | hf | ht
      · exact absurd hu hs
      · exact ⟨1, false, by rw [number_signed_succ, if_pos hs, hf]; rfl⟩
      · exact ⟨1, true, by rw [number_signed_succ, if_pos hs, ht]; rfl⟩

theorem number_signed_fuel_le (h : Heap) (fuel fuel2 a : Nat) (hle : fuel ≤ fuel2)
    (hne : Number.Signed h fuel a ≠ .outOfFuel) :
    Number.Signed h fuel2 a = Number.Signed h fuel a := by
  obtain ⟨k, rfl⟩ := Nat.exists_eq_add_of_le hle
  exact number_signed_fuel_add h fuel a hne k

/-- A call that returns a value at some stack depth returns it at every larger depth and
panics at none. -/
theorem no_panic_of_value {α : Type} (run : Nat → Res α)
    (hmono : ∀ f1 f2, f1 ≤ f2 → run f1 ≠ .outOfFuel → run f2 = run f1)
    (fuel : Nat) (v : α) (hv : run fuel = .val v) :
    (∀ k, run (fuel + k) = .val v) ∧ (∀ f msg, run f ≠ .panic msg) := by
  constructor
  · intro k
    rw [hmono fuel (fuel + k) (Nat.le_add_right _ _) (by rw [hv]; simp), hv]
  · intro f msg hp
    rcases Nat.le_total f fuel with hle | hle
    · have := hmono f fuel hle (by rw [hp]; simp)
      rw [hv, hp] at this
      exact absurd this (by simp)
    · have := hmono fuel f hle (by rw [hv]; simp)
      rw [hv, hp] at this
      exact absurd this (by simp)

theorem demoHeap_structures_declared (b : Nat) : (demoHeap.structures b).signed.Declared := by
  rcases b with _ | _ | _ | _ | _ | _ | _ | _ | b
  · exact Or.inr (Or.inl rfl)
  · exact Or.inr (Or.inr rfl)
  all_goals exact Or.inl rfl

theorem demoHeap_numbers_declared (b : Nat) : (demoHeap.numbers b).signed.Declared := by
  rcases b with _ | _ | _ | _ | _ | _ | _ | _ | b
  · exact Or.inr (Or.inl rfl)
  · exact Or.inr (Or.inr rfl)
  all_goals exact Or.inl rfl

theorem demoHeap_structure_finite_1 : Structure.FiniteChains demoHeap 1 :=
  .mk (fun e he => by simp [demoHeap] at he) (fun p hp => by simp [demoHeap] at hp)

theorem demoHeap_structure_finite_0 : Structure.FiniteChains demoHeap 0 :=
  .mk (fun e he => by
      have : e = 1 := by simpa [demoHeap] using he.symm
      subst this; exact demoHeap_structure_finite_1)
    (fun p hp => by
      have : p = 1 := by simpa [demoHeap] using hp.symm
      subst this; exact demoHeap_structure_finite_1)

theorem demoHeap_structure_finite_2 : Structure.FiniteChains demoHeap 2 :=
  .mk (fun e he => by
      have : e = 0 := by simpa [demoHeap] using he.symm
      subst this; exact demoHeap_structure_finite_0)
    (fun p hp => by
      have : p = 1 := by simpa [demoHeap] using hp.symm
      subst this; exact demoHeap_structure_finite_1)

theorem demoHeap_structure_finite_3 : Structure.FiniteChains demoHeap 3 :=
  .mk (fun e he => by
      have : e = 2 := by simpa [demoHeap] using he.symm
      subst this; exact demoHeap_structure_finite_2)
    (fun p hp => by simp [demoHeap] at hp)

theorem demoHeap_number_finite_1 : Number.FiniteChains demoHeap 1 :=
  .mk (fun e he => by simp [demoHeap] at he) (fun p hp => by simp [demoHeap] at hp)

theorem demoHeap_number_finite_0 : Number.FiniteChains demoHeap 0 :=
  .mk (fun e he => by
      have : e = 1 := by simpa [demoHeap] using he.symm
      subst this; exact demoHeap_number_finite_1)
    (fun p hp => by
      have : p = 1 := by simpa [demoHeap] using hp.symm
      subst this; exact demoHeap_structure_finite_1)

theorem demoHeap_number_finite_2 : Number.FiniteChains demoHeap 2 :=
  .mk (fun e he => by
      have : e = 0 := by simpa [demoHeap] using he.symm
      subst this; exact demoHeap_number_finite_0)
    (fun p hp => by
      have : p = 1 := by simpa [demoHeap] using hp.symm
      subst this; exact demoHeap_structure_finite_1)

/-! ## Theorems -/

/-- C1. Locally set signedness wins: when the own `signed` field of a Structure or of a
Number is `False` or `True`, `Signed()` returns that value (`False` gives `false`, `True`
gives `true`) at every positive stack depth, whatever the heap holds behind the `extends`
and `parent` pointers. -/
theorem signed_local_wins (h : Heap) (a fuel : Nat) :
    ((h.structures a).signed = TriBool.False →
      Structure.Signed h (fuel + 1) a = .val false) ∧
    ((h.structures a).signed = TriBool.True →
      Structure.Signed h (fuel + 1) a = .val true) ∧
    ((h.numbers a).signed = TriBool.False →
      Number.Signed h (fuel + 1) a = .val false) ∧
    ((h.numbers a).signed = TriBool.True →
      Number.Signed h (fuel + 1) a = .val true) := by
  refine ⟨?_, ?_, ?_, ?_⟩ <;> intro hs <;>
    simp [Structure.Signed, Number.Signed, hs, TriBool.bool, TriBool.False,
      TriBool.True, TriBool.UnknownBool]

/-- Witness of C1: Structure 0 and Number 0 of the example heap are locally `False` while
the element they extend and their parent are `True`, and both resolve to `false`;
Structure 1 and Number 1 are locally `True` and resolve to `true`. -/
theorem signed_local_wins_witness :
    (demoHeap.structures 0).extends_ = some 1 ∧ (demoHeap.structures 0).parent = some 1 ∧
    (demoHeap.structures 1).signed = TriBool.True ∧
    Structure.Signed demoHeap 1 0 = .val false ∧
    Structure.Signed demoHeap 1 1 = .val true ∧
    Number.Signed demoHeap 1 0 = .val false ∧
    Number.Signed demoHeap 1 1 = .val true :=
  ⟨rfl, rfl, rfl, (signed_local_wins demoHeap 0 0).1 rfl,
    (signed_local_wins demoHeap 1 0).2.1 rfl,
    (signed_local_wins demoHeap 0 0).2.2.1 rfl,
    (signed_local_wins demoHeap 1 0).2.2.2 rfl⟩

/-- C2. Extends outranks parent and is transitive.  For a Structure (resp. Number) `e`
whose `signed` is unset and whose `extends` pointer is `p`: the call `e.Signed()` is the
call `p.Signed()` one stack frame deeper, so both terminate with the same outcomes, and
no call on the heap changes when the `parent` pointer of `e` is replaced by any pointer
`q` (the parent of `e` is never consulted).  Along an `extends` chain `e, l₀, …` whose
members before the last have `signed` unset, `e.Signed()` is the `Signed()` of the last
member `l.length` frames deeper; for two levels `e → p → root` it is `root.Signed()`. -/
theorem signed_extends_outranks_parent (h : Heap) :
    (∀ e p, (h.structures e).signed = TriBool.UnknownBool →
      (h.structures e).extends_ = some p →
        (∀ fuel, Structure.Signed h (fuel + 1) e = Structure.Signed h fuel p) ∧
        (∀ r, Returns (fun fuel => Structure.Signed h fuel e) r ↔
          Returns (fun fuel => Structure.Signed h fuel p) r) ∧
        (∀ q fuel x, Structure.Signed (h.withStructureParent e q) fuel x =
          Structure.Signed h fuel x)) ∧
    (∀ e p, (h.numbers e).signed = TriBool.UnknownBool →
      (h.numbers e).extends_ = some p →
        (∀ fuel, Number.Signed h (fuel + 1) e = Number.Signed h fuel p) ∧
        (∀ r, Returns (fun fuel => Number.Signed h fuel e) r ↔
          Returns (fun fuel => Number.Signed h fuel p) r) ∧
        (∀ q fuel x, Number.Signed (h.withNumberParent e q) fuel x =
          Number.Signed h fuel x)) ∧
    (∀ e l, Structure.UnsetChain h e l →
        (∀ fuel, Structure.Signed h (fuel + l.length) e =
          Structure.Signed h fuel (l.getLastD e)) ∧
        (∀ r, Returns (fun fuel => Structure.Signed h fuel e) r ↔
          Returns (fun fuel => Structure.Signed h fuel (l.getLastD e)) r)) ∧
    (∀ e l, Number.UnsetChain h e l →
        (∀ fuel, Number.Signed h (fuel + l.length) e =
          Number.Signed h fuel (l.getLastD e)) ∧
        (∀ r, Returns (fun fuel => Number.Signed h fuel e) r ↔
          Returns (fun fuel => Number.Signed h fuel (l.getLastD e)) r)) ∧
    (∀ e p root, Structure.UnsetChain h e [p, root] →
        ∀ fuel, Structure.Signed h (fuel + 2) e = Structure.Signed h fuel root) ∧
    (∀ e p root, Number.UnsetChain h e [p, root] →
        ∀ fuel, Number.Signed h (fuel + 2) e = Number.Signed h fuel root) :=
  ⟨fun e p hs he => ⟨structure_signed_of_extends h e p hs he,
      structure_returns_of_extends h e p hs he,
      fun q fuel x => structure_signed_withStructureParent h e p q hs he fuel x⟩,
    fun e p hs he => ⟨number_signed_of_extends h e p hs he,
      number_returns_of_extends h e p hs he,
      fun q fuel x => number_signed_withNumberParent h e p q hs he fuel x⟩,
    fun e l hc => ⟨structure_signed_chain h l e hc, structure_returns_chain h l e hc⟩,
    fun e l hc => ⟨number_signed_chain h l e hc, number_returns_chain h l e hc⟩,
    fun e p root hc => structure_signed_chain h [p, root] e hc,
    fun e p root hc => number_signed_chain h [p, root] e hc⟩

/-- Witness of C2: in the example heap Structure 2 (unset) extends the unsigned
Structure 0 and sits inside the signed Structure 1; it resolves to `false`, the answer
of 0, although its parent resolves to `true`.  Structure 3 extends 2, and resolves
through two levels to the answer of 0.  The Numbers 2 and 3 do the same. -/
theorem signed_extends_outranks_parent_witness :
    (demoHeap.structures 2).parent = some 1 ∧
    Structure.Signed demoHeap 1 1 = .val true ∧
    Structure.Signed demoHeap 2 2 = .val false ∧
    Structure.Signed demoHeap 3 3 = .val false ∧
    Number.Signed demoHeap 1 1 = .val true ∧
    Number.Signed demoHeap 2 2 = .val false ∧
    Number.Signed demoHeap 3 3 = .val false :=
  ⟨rfl, rfl,
    (((signed_extends_outranks_parent demoHeap).1 2 0 rfl rfl).1 1).trans rfl,
    ((signed_extends_outranks_parent demoHeap).2.2.2.2.1 3 2 0 ⟨rfl, rfl, rfl, rfl, trivial⟩
      1).trans rfl,
    rfl,
    (((signed_extends_outranks_parent demoHeap).2.1 2 0 rfl rfl).1 1).trans rfl,
    ((signed_extends_outranks_parent demoHeap).2.2.2.2.2 3 2 0 ⟨rfl, rfl, rfl, rfl, trivial⟩
      1).trans rfl⟩

/-- C3. Scope fallback for signedness: for a Structure (resp. Number) `e` whose `signed`
is unset, whose `extends` pointer is nil and whose `parent` pointer is the Structure `q`,
the call `e.Signed()` is the call `q.Signed()` (the full resolution of the parent
Structure) one stack frame deeper, and both terminate with the same outcomes. -/
theorem signed_scope_fallback (h : Heap) (e q : Nat) :
    ((h.structures e).signed = TriBool.UnknownBool → (h.structures e).extends_ = none →
      (h.structures e).parent = some q →
        (∀ fuel, Structure.Signed h (fuel + 1) e = Structure.Signed h fuel q) ∧
        (∀ r, Returns (fun fuel => Structure.Signed h fuel e) r ↔
          Returns (fun fuel => Structure.Signed h fuel q) r)) ∧
    ((h.numbers e).signed = TriBool.UnknownBool → (h.numbers e).extends_ = none →
      (h.numbers e).parent = some q →
        (∀ fuel, Number.Signed h (fuel + 1) e = Structure.Signed h fuel q) ∧
        (∀ r, Returns (fun fuel => Number.Signed h fuel e) r ↔
          Returns (fun fuel => Structure.Signed h fuel q) r)) :=
  ⟨fun hs he hp => ⟨structure_signed_of_parent h e q hs he hp,
      returns_of_step _ _ (structure_signed_of_parent h e q hs he hp) rfl⟩,
    fun hs he hp => ⟨number_signed_of_parent h e q hs he hp,
      returns_of_step _ _ (number_signed_of_parent h e q hs he hp) rfl⟩⟩

/-- Witness of C3: Structure 4 and Number 4 of the example heap have nothing set but the
parent Structure 0, which is locally unsigned; both resolve to `false`. -/
theorem signed_scope_fallback_witness :
    Structure.Signed demoHeap 2 4 = .val false ∧ Number.Signed demoHeap 2 4 = .val false :=
  ⟨(((signed_scope_fallback demoHeap 4 0).1 rfl rfl rfl).1 1).trans rfl,
    (((signed_scope_fallback demoHeap 4 0).2 rfl rfl rfl).1 1).trans rfl⟩

/-- C4. Static default for signedness: a Structure or a Number whose `signed` is unset,
whose `extends` pointer is nil and whose `parent` pointer is nil has `Signed()` return
`true`, at every positive stack depth. -/
theorem signed_static_default (h : Heap) (e fuel : Nat) :
    ((h.structures e).signed = TriBool.UnknownBool → (h.structures e).extends_ = none →
      (h.structures e).parent = none → Structure.Signed h (fuel + 1) e = .val true) ∧
    ((h.numbers e).signed = TriBool.UnknownBool → (h.numbers e).extends_ = none →
      (h.numbers e).parent = none → Number.Signed h (fuel + 1) e = .val true) := by
  constructor <;> intro hs he hp
  · rw [structure_signed_succ]; simp [hs, he, hp]
  · rw [number_signed_succ]; simp [hs, he, hp]

/-- Witness of C4: Structure 5 and Number 5 of the example heap have nothing set. -/
theorem signed_static_default_witness :
    Structure.Signed demoHeap 1 5 = .val true ∧ Number.Signed demoHeap 1 5 = .val true :=
  ⟨(signed_static_default demoHeap 5 0).1 rfl rfl rfl,
    (signed_static_default demoHeap 5 0).2 rfl rfl rfl⟩

/-- Counterexample to C5 as stated: Structure 4 and Number 4 of the example heap have
`signed` unset and no `extends` pointer, yet `Signed()` returns `false`, the local value
of their parent Structure 0, and returns `true` at no stack depth. -/
theorem signed_default_without_extends_counterexample :
    ((demoHeap.structures 4).signed = TriBool.UnknownBool ∧
      (demoHeap.structures 4).extends_ = none ∧
      Structure.Signed demoHeap 2 4 = .val false ∧
      ¬ Returns (fun fuel => Structure.Signed demoHeap fuel 4) (.val true)) ∧
    ((demoHeap.numbers 4).signed = TriBool.UnknownBool ∧
      (demoHeap.numbers 4).extends_ = none ∧
      Number.Signed demoHeap 2 4 = .val false ∧
      ¬ Returns (fun fuel => Number.Signed demoHeap fuel 4) (.val true)) := by
  refine ⟨⟨rfl, rfl, rfl, ?_⟩, ⟨rfl, rfl, rfl, ?_⟩⟩
  · rintro ⟨_, fuel, hf⟩
    have hf2 : Structure.Signed demoHeap fuel 4 = .val true := hf
    have h2 : Structure.Signed demoHeap 2 4 ≠ .outOfFuel := by decide
    rcases Nat.lt_or_ge fuel 2 with hlt | hge
    · interval_cases fuel <;> exact absurd hf2 (by decide)
    · obtain ⟨k, rfl⟩ := Nat.exists_eq_add_of_le hge
      rw [structure_signed_fuel_add demoHeap 2 4 h2 k] at hf2
      exact absurd hf2 (by decide)
  · rintro ⟨_, fuel, hf⟩
    have hf2 : Number.Signed demoHeap fuel 4 = .val true := hf
    have h2 : Number.Signed demoHeap 2 4 ≠ .outOfFuel := by decide
    rcases Nat.lt_or_ge fuel 2 with hlt | hge
    · interval_cases fuel <;> exact absurd hf2 (by decide)
    · obtain ⟨k, rfl⟩ := Nat.exists_eq_add_of_le hge
      rw [number_signed_fuel_add demoHeap 2 4 h2 k] at hf2
      exact absurd hf2 (by decide)

/-- C5, amended. A Structure or a Number whose `signed` is unset and which has no
`extends` pointer returns the static default `true` when it has no parent Structure, and
otherwise answers with the `Signed()` of its parent Structure `q`, one stack frame
deeper; so it returns `true` exactly when its parent does. -/
theorem signed_default_without_extends (h : Heap) (e fuel : Nat) :
    ((h.structures e).signed = TriBool.UnknownBool → (h.structures e).extends_ = none →
      Structure.Signed h (fuel + 1) e =
        match (h.structures e).parent with
        | none => .val true
        | some q => Structure.Signed h fuel q) ∧
    ((h.numbers e).signed = TriBool.UnknownBool → (h.numbers e).extends_ = none →
      Number.Signed h (fuel + 1) e =
        match (h.numbers e).parent with
        | none => .val true
        | some q => Structure.Signed h fuel q) := by
  constructor <;> intro hs he
  · rw [structure_signed_succ]; simp only [hs, he, ne_eq, not_true_eq_false, if_false]
    cases (h.structures e).parent <;> rfl
  · rw [number_signed_succ]; simp only [hs, he, ne_eq, not_true_eq_false, if_false]
    cases (h.numbers e).parent <;> rfl

/-- Witness of C5, amended: without a parent (Structure 5, Number 5) the answer is
`true`; inside the unsigned Structure 0 (Structure 4, Number 4) it is `false`. -/
theorem signed_default_without_extends_witness :
    Structure.Signed demoHeap 1 5 = .val true ∧ Structure.Signed demoHeap 2 4 = .val false ∧
    Number.Signed demoHeap 1 5 = .val true ∧ Number.Signed demoHeap 2 4 = .val false :=
  ⟨(signed_default_without_extends demoHeap 5 0).1 rfl rfl,
    ((signed_default_without_extends demoHeap 4 1).1 rfl rfl).trans rfl,
    (signed_default_without_extends demoHeap 5 0).2 rfl rfl,
    ((signed_default_without_extends demoHeap 4 1).2 rfl rfl).trans rfl⟩

/-- C6. Read offset invariant, on the Read protocol modelled from the spec: for every
element kind, whenever a Read call returns a Value, the offset of the decoder after the
call is `Value.Offset + Value.Len`, and `Value.Offset` is the offset of the decoder before
the call; so the decoder is left at `start_offset + len(value)`. -/
theorem read_offset_invariant (G : Getters) (C : Collaborators) (h : Heap) (fuel : Nat)
    (e : Element) (scope : List Value) (d : Decoder) (v : Value) (d2 : Decoder)
    (hread : Read G C h fuel e scope d = .ok (v, d2)) :
    d2.offset = v.Offset + v.Len ∧ v.Offset = d.offset ∧ d2.offset = d.offset + v.Len := by
  have hinv := read_leavesAtEnd G C h fuel e scope d v d2 hread
  exact ⟨hinv.1, hinv.2, by rw [hinv.1, hinv.2]⟩

/-- Witness of C6: the header of the example heap read at offset 0 of four zero bytes
yields a Value of length 4 whose child reports the mismatch with the magic number, and
leaves the decoder at offset 4. -/
theorem read_offset_invariant_witness :
    Read fieldGetters demoCollaborators demoHeap 2 (.structure 7) [] ⟨[0, 0, 0, 0], 0⟩ =
      .ok (.mk 0 4 (.structure 7) [] false [.mk 0 4 (.number 7) [] true []],
        ⟨[0, 0, 0, 0], 4⟩) ∧
    (4 : Nat) = Value.Offset (.mk 0 4 (.structure 7) [] false [.mk 0 4 (.number 7) [] true []])
      + Value.Len (.mk 0 4 (.structure 7) [] false [.mk 0 4 (.number 7) [] true []]) :=
  ⟨rfl, (read_offset_invariant fieldGetters demoCollaborators demoHeap 2 (.structure 7) []
    ⟨[0, 0, 0, 0], 0⟩ _ ⟨[0, 0, 0, 0], 4⟩ rfl).1⟩

/-- C7. StructRef delegates its length: when the call `r.Structure()` of a StructRef `r`
returns the pointer `t`, `r.Length()` is the outcome of `t.Length()` and `r.LengthUnit()`
the outcome of `t.LengthUnit()`; in particular a target whose `Length()` returns `"8"`
makes the StructRef return `"8"`.  Nothing of `r` but the answer of `r.Structure()` is
read. -/
theorem structRef_delegates_length (G : Getters) (h : Heap) (r t : Ptr)
    (ht : G.StructRef_Structure h r = .val t) :
    StructRef.Length G h r = G.Structure_Length h t ∧
    StructRef.LengthUnit G h r = G.Structure_LengthUnit h t ∧
    (G.Structure_Length h t = .val "8" → StructRef.Length G h r = .val "8") := by
  refine ⟨?_, ?_, ?_⟩
  · simp [StructRef.Length, ht, Res.bind]
  · simp [StructRef.LengthUnit, ht, Res.bind]
  · intro h8
    simp [StructRef.Length, ht, Res.bind, h8]

/-- Witness of C7: StructRef 0 of the example heap refers to Structure 6, whose length is
`"8"` in bytes; the StructRef reports the same. -/
theorem structRef_delegates_length_witness :
    fieldGetters.Structure_Length demoHeap (some 6) = .val "8" ∧
    StructRef.Length fieldGetters demoHeap (some 0) = .val "8" ∧
    StructRef.LengthUnit fieldGetters demoHeap (some 0) = .val ByteLengthUnit :=
  ⟨rfl, ((structRef_delegates_length fieldGetters demoHeap (some 0) (some 6) rfl).2.2 rfl),
    ((structRef_delegates_length fieldGetters demoHeap (some 0) (some 6) rfl).2.1).trans rfl⟩

/-- C8. Custom repeats exactly once: on every heap and for every receiver pointer, nil
included, `RepeatMin()` and `RepeatMax()` of a Custom return the Reference `"1"`. -/
theorem custom_repeats_once (h : Heap) (c : Ptr) :
    Custom.RepeatMin h c = "1" ∧ Custom.RepeatMax h c = "1" :=
  ⟨rfl, rfl⟩

/-- C9. ScriptElement has zero length: on every heap and for every receiver pointer,
`Length()` of a ScriptElement returns the Reference `"0"` and `LengthUnit()` returns
`ByteLengthUnit`. -/
theorem scriptElement_zero_length (h : Heap) (s : Ptr) :
    ScriptElement.Length h s = "0" ∧ ScriptElement.LengthUnit h s = ByteLengthUnit :=
  ⟨rfl, rfl⟩

/-- C10. Grammar length is always unset: on every heap and for every Grammar pointer `g`,
`g.Length()` returns the empty Reference and `g.LengthUnit()` returns `ByteLengthUnit`;
hence whenever the call `r.Grammar()` of a GrammarRef `r` returns a pointer `t`,
`r.Length()` returns `""` and `r.LengthUnit()` returns `ByteLengthUnit`. -/
theorem grammar_length_unset (h : Heap) (g : Ptr) :
    Grammar.Length h g = "" ∧ Grammar.LengthUnit h g = ByteLengthUnit ∧
    ∀ (G : Getters) (r t : Ptr), G.GrammarRef_Grammar h r = .val t →
      GrammarRef.Length G h r = .val "" ∧
      GrammarRef.LengthUnit G h r = .val ByteLengthUnit := by
  refine ⟨rfl, rfl, ?_⟩
  intro G r t ht
  constructor
  · simp [GrammarRef.Length, ht, Res.bind, Grammar.Length]
  · simp [GrammarRef.LengthUnit, ht, Res.bind, Grammar.LengthUnit]

/-- Witness of C10: Grammar 0 of the example heap has fields set and still has the unset
length; GrammarRef 0, which refers to it, reports the same. -/
theorem grammar_length_unset_witness :
    (demoHeap.grammars 0).Author = "a" ∧
    Grammar.Length demoHeap (some 0) = "" ∧
    Grammar.LengthUnit demoHeap (some 0) = ByteLengthUnit ∧
    GrammarRef.Length fieldGetters demoHeap (some 0) = .val "" ∧
    GrammarRef.LengthUnit fieldGetters demoHeap (some 0) = .val ByteLengthUnit :=
  ⟨rfl, (grammar_length_unset demoHeap (some 0)).1, (grammar_length_unset demoHeap (some 0)).2.1,
    (grammar_length_unset demoHeap (some 0)).2.2 fieldGetters (some 0) (some 0) rfl⟩

/-- C11. ElementByName returns a child element with this name, or nil.  Let the Structure
`s` have the finite `extends` chain `s, l₀, l₁, …` (the last member extends nothing).
Whatever `s.ElementByName(name)` returns, at any stack depth, is nil if and only if no
Structure on the chain, `s` included, has a child called `name`; and a result that is
not nil has the `Name()` `name` and is in the children list of a Structure on the chain.
The call does return, with one result at every stack depth that covers the chain, when
the children lists on the chain hold elements only (no entry is the nil interface, on
which `Name()` panics). -/
theorem elementByName_child_or_nil (h : Heap) (name : String) (s : Nat) (l : List Nat)
    (hchain : Structure.ExtendsChain h s l) :
    (∀ fuel r, Structure.ElementByName h name fuel s = .val r →
      (r = Element.nil ↔ ∀ a ∈ s :: l, ¬ Structure.HasChildNamed h name a) ∧
      (r ≠ Element.nil → Element.Name h r = .val name ∧
        ∃ a ∈ s :: l, r ∈ (h.structures a).elements)) ∧
    ((∀ a ∈ s :: l, Structure.ChildrenPresent h a) →
      ∃ r, ∀ fuel, l.length + 1 ≤ fuel → Structure.ElementByName h name fuel s = .val r) := by
  refine ⟨elementByName_chain_returns h name l s hchain, fun hpresent => ?_⟩
  obtain ⟨r, hr, _⟩ := elementByName_chain h name l s hchain hpresent
  exact ⟨r, hr⟩

/-- Witness of C11: Structure 0 of the second example heap extends Structure 1, which
extends nothing; the name `c` is found in the extended Structure, the name `z`
nowhere. -/
theorem elementByName_child_or_nil_witness :
    Structure.ElementByName lookupHeap "c" 2 0 = .val (.number 4) ∧
    Element.Name lookupHeap (.number 4) = .val "c" ∧
    (∃ a ∈ [0, 1], Element.number 4 ∈ (lookupHeap.structures a).elements) ∧
    Structure.ElementByName lookupHeap "z" 2 0 = .val Element.nil ∧
    (∀ a ∈ [0, 1], ¬ Structure.HasChildNamed lookupHeap "z" a) ∧
    (∃ r, ∀ fuel, 2 ≤ fuel → Structure.ElementByName lookupHeap "z" fuel 0 = .val r) :=
  ⟨rfl,
    (((elementByName_child_or_nil lookupHeap "c" 0 [1] ⟨rfl, rfl⟩).1 2 (.number 4) rfl).2
      (by decide)).1,
    (((elementByName_child_or_nil lookupHeap "c" 0 [1] ⟨rfl, rfl⟩).1 2 (.number 4) rfl).2
      (by decide)).2,
    rfl,
    ((elementByName_child_or_nil lookupHeap "z" 0 [1] ⟨rfl, rfl⟩).1 2 Element.nil rfl).1.mp rfl,
    (elementByName_child_or_nil lookupHeap "z" 0 [1] ⟨rfl, rfl⟩).2 (by
      intro a ha
      simp only [List.mem_cons, List.mem_singleton, List.not_mem_nil, or_false] at ha
      rcases ha with rfl | rfl <;> unfold Structure.ChildrenPresent <;> decide)⟩

/-- C12. Repeat defaulting, on the getters modelled from the spec: a Structure whose
`repeatMin` and `repeatMax` are not locally set and which has no `extends` pointer has
`RepeatMin()` and `RepeatMax()` return the Reference `"1"` at every positive stack depth,
on every heap and for every parent pointer `q` put in place of its own. -/
theorem repeat_defaulting (h : Heap) (a fuel : Nat)
    (hmin : (h.structures a).repeats.repeatMin = "")
    (hmax : (h.structures a).repeats.repeatMax = "")
    (hext : (h.structures a).extends_ = none) :
    Structure.RepeatMin h (fuel + 1) a = .val "1" ∧
    Structure.RepeatMax h (fuel + 1) a = .val "1" ∧
    (∀ q, Structure.RepeatMin (h.withStructureParent a q) (fuel + 1) a = .val "1" ∧
      Structure.RepeatMax (h.withStructureParent a q) (fuel + 1) a = .val "1") := by
  refine ⟨?_, ?_, fun q => ⟨?_, ?_⟩⟩
  · simp [Structure.RepeatMin, hmin, hext]
  · simp [Structure.RepeatMax, hmax, hext]
  · simp [Structure.RepeatMin, Heap.withStructureParent, hmin, hext]
  · simp [Structure.RepeatMax, Heap.withStructureParent, hmax, hext]

/-- Witness of C12: Structure 4 of the second example heap has nothing set and sits
inside Structure 2, whose repeat bounds are 3 and 5; its own bounds resolve to 1. -/
theorem repeat_defaulting_witness :
    (lookupHeap.structures 4).parent = some 2 ∧
    Structure.RepeatMin lookupHeap 1 2 = .val "3" ∧
    Structure.RepeatMax lookupHeap 1 2 = .val "5" ∧
    Structure.RepeatMin lookupHeap 1 4 = .val "1" ∧
    Structure.RepeatMax lookupHeap 1 4 = .val "1" :=
  ⟨rfl, rfl, rfl, (repeat_defaulting lookupHeap 4 0 rfl rfl rfl).1,
    (repeat_defaulting lookupHeap 4 0 rfl rfl rfl).2.1⟩

/-- Counterexample to C13 as stated, on the getters modelled from the spec: Structure 3
of the second example heap has no `extends` pointer and no locally set fill colour, but a
locally set stroke colour `0x0000ff`; its resolved stroke colour is that colour at every
positive stack depth, and `Black` at none. -/
theorem colour_not_from_parent_counterexample :
    (lookupHeap.structures 3).extends_ = none ∧
    (lookupHeap.structures 3).colourful.fillColour = none ∧
    (∀ fuel, Structure.StrokeColour lookupHeap (fuel + 1) 3 = .val 0x0000ff) ∧
    (∀ fuel, Structure.StrokeColour lookupHeap fuel 3 ≠ .val Black) := by
  have hstep : ∀ fuel, Structure.StrokeColour lookupHeap (fuel + 1) 3 = .val 0x0000ff :=
    fun _ => rfl
  refine ⟨rfl, rfl, hstep, ?_⟩
  intro fuel
  cases fuel with
  | zero => decide
  | succ k => rw [hstep k]; decide

/-- C13, amended, on the getters modelled from the spec.  Colour is never inherited from
the parent: for a Structure that has no `extends` pointer, the resolved fill colour is
`White` (0xffffff) when no fill colour is locally set, and the resolved stroke colour is
`Black` (0x000000) when no stroke colour is locally set, on every heap and for every
parent pointer `q` put in place of its own. -/
theorem colour_not_from_parent (h : Heap) (a fuel : Nat)
    (hext : (h.structures a).extends_ = none) :
    ((h.structures a).colourful.fillColour = none →
      Structure.FillColour h (fuel + 1) a = .val White ∧
      ∀ q, Structure.FillColour (h.withStructureParent a q) (fuel + 1) a = .val White) ∧
    ((h.structures a).colourful.strokeColour = none →
      Structure.StrokeColour h (fuel + 1) a = .val Black ∧
      ∀ q, Structure.StrokeColour (h.withStructureParent a q) (fuel + 1) a = .val Black) ∧
    White = 0xffffff ∧ Black = 0x000000 := by
  refine ⟨fun hf => ⟨?_, fun q => ?_⟩, fun hs => ⟨?_, fun q => ?_⟩, rfl, rfl⟩
  · simp [Structure.FillColour, hf, hext]
  · simp [Structure.FillColour, Heap.withStructureParent, hf, hext]
  · simp [Structure.StrokeColour, hs, hext]
  · simp [Structure.StrokeColour, Heap.withStructureParent, hs, hext]

/-- Witness of C13, amended: Structure 4 of the second example heap has nothing set and
sits inside Structure 2, whose fill colour is `0xff0000`; it resolves to `White` and
`Black`.  Structure 3, with a stroke colour only, resolves its fill colour to `White`. -/
theorem colour_not_from_parent_witness :
    (lookupHeap.structures 4).parent = some 2 ∧
    Structure.FillColour lookupHeap 1 2 = .val 0xff0000 ∧
    Structure.FillColour lookupHeap 1 4 = .val White ∧
    Structure.StrokeColour lookupHeap 1 4 = .val Black ∧
    Structure.FillColour lookupHeap 1 3 = .val White :=
  ⟨rfl, rfl, ((colour_not_from_parent lookupHeap 4 0 rfl).1 rfl).1,
    ((colour_not_from_parent lookupHeap 4 0 rfl).2.1 rfl).1,
    ((colour_not_from_parent lookupHeap 3 0 rfl).1 rfl).1⟩

/-- C14. Nearest definition wins in ElementByName.  Whatever `s.ElementByName(name)`
returns: if the children list of the Structure `s` has an element called `name`, the
result is the first such element of that list, whatever `s.extends` is; otherwise, if
`s.extends` is `E`, it is the result of `E.ElementByName(name)`, and nil if nothing is
extended.  When the own children list holds elements only (no entry is the nil
interface), the call does return so: it returns the first own child called `name`, and
without such a child it is the call `E.ElementByName(name)` one stack frame deeper, with
the same terminating outcomes. -/
theorem elementByName_nearest_wins (h : Heap) (name : String) (s : Nat) :
    (∀ fuel r, Structure.ElementByName h name (fuel + 1) s = .val r →
      (Structure.HasChildNamed h name s →
        ∃ n : Nat, (h.structures s).elements[n]? = some r ∧
          Element.Name h r = .val name ∧
          (∀ (j : Nat) (e2 : Element), j < n → (h.structures s).elements[j]? = some e2 →
            Element.Name h e2 ≠ .val name)) ∧
      (¬ Structure.HasChildNamed h name s →
        (∀ E, (h.structures s).extends_ = some E →
          Structure.ElementByName h name fuel E = .val r) ∧
        ((h.structures s).extends_ = none → r = Element.nil))) ∧
    (Structure.ChildrenPresent h s →
      (∀ (i : Nat) (e : Element), (h.structures s).elements[i]? = some e →
        Element.Name h e = .val name →
        (∀ (j : Nat) (e2 : Element), j < i → (h.structures s).elements[j]? = some e2 →
          Element.Name h e2 ≠ .val name) →
        ∀ fuel, Structure.ElementByName h name (fuel + 1) s = .val e) ∧
      (¬ Structure.HasChildNamed h name s →
        (∀ E, (h.structures s).extends_ = some E →
          (∀ fuel, Structure.ElementByName h name (fuel + 1) s =
            Structure.ElementByName h name fuel E) ∧
          (∀ r, Returns (fun fuel => Structure.ElementByName h name fuel s) r ↔
            Returns (fun fuel => Structure.ElementByName h name fuel E) r)) ∧
        ((h.structures s).extends_ = none →
          ∀ fuel, Structure.ElementByName h name (fuel + 1) s = .val Element.nil))) := by
  refine ⟨fun fuel r hr => ?_, fun hpresent => ⟨?_, fun hno => ?_⟩⟩
  · rcases elementByName_returns h name fuel s r hr with
      ⟨n, hn, _, hname, hfirst⟩ | ⟨hnone, hrest⟩
    · refine ⟨fun _ => ⟨n, hn, hname, hfirst⟩, fun hno => ?_⟩
      exact absurd ⟨r, List.getElem?_mem hn, hname⟩ hno
    · refine ⟨fun hhas => ?_, fun _ => ⟨fun E hE => ?_, fun hE => ?_⟩⟩
      · obtain ⟨e, he, hn⟩ := hhas
        exact absurd hn (hnone e he)
      · rcases hrest with ⟨E2, hE2, hr2⟩ | ⟨hnoext, _⟩
        · rw [hE] at hE2
          rw [Option.some.inj hE2]
          exact hr2
        · rw [hE] at hnoext; exact absurd hnoext (by simp)
      · rcases hrest with ⟨E2, hE2, _⟩ | ⟨_, hrn⟩
        · rw [hE] at hE2; exact absurd hE2 (by simp)
        · exact hrn
  · intro i e hi hn hfirst fuel
    exact elementByName_of_first h name s hpresent i e hi hn hfirst fuel
  · have hnone : ∀ e ∈ (h.structures s).elements, Element.Name h e ≠ .val name :=
      fun e he hn => hno ⟨e, he, hn⟩
    refine ⟨fun E hE => ?_, fun hE fuel => ?_⟩
    · have hstep : ∀ fuel, Structure.ElementByName h name (fuel + 1) s =
          Structure.ElementByName h name fuel E := by
        intro fuel
        rw [elementByName_of_none h name s hpresent hnone fuel, hE]
      exact ⟨hstep, returns_of_step _ _ hstep rfl⟩
    · rw [elementByName_of_none h name s hpresent hnone fuel, hE]

/-- Witness of C14: in the second example heap Structure 0 has the own children `a`, `b`,
`a` and extends Structure 1 with the children `b`, `c`.  The name `b` resolves to the own
child, Number 1, and not to Number 3 of the extended Structure; the name `c` resolves as
in the extended Structure, to Number 4. -/
theorem elementByName_nearest_wins_witness :
    Structure.ElementByName lookupHeap "b" 1 0 = .val (.number 1) ∧
    Structure.ElementByName lookupHeap "b" 1 1 = .val (.number 3) ∧
    Structure.ElementByName lookupHeap "c" 2 0 = .val (.number 4) ∧
    Structure.ElementByName lookupHeap "c" 1 1 = .val (.number 4) :=
  ⟨((elementByName_nearest_wins lookupHeap "b" 0).2
      (by unfold Structure.ChildrenPresent; decide)).1
      1 (.number 1) rfl rfl (by
        intro j e2 hj he
        interval_cases j
        have he2 : e2 = Element.number 0 := by
          simpa [lookupHeap] using he.symm
        subst he2
        decide) 0,
    rfl, rfl,
    (((elementByName_nearest_wins lookupHeap "c" 0).1 1 (.number 4) rfl).2 (by
      rintro ⟨e, he, hn⟩
      have hmem : e = .number 0 ∨ e = .number 1 ∨ e = .number 2 := by
        simpa [lookupHeap] using he
      rcases hmem with rfl | rfl | rfl <;> exact absurd hn (by decide))).1 1 rfl⟩

/-- C15. Elements.Find returns the first match.  On a list of elements (no entry is the
nil interface, on which `Name()` panics): if the element at index `i` is called `name`
and no element before it is, `Find(name)` returns `(i, es[i])`; if no element is called
`name`, it returns `(-1, nil)`, as it does on the empty list.  On every list, whatever
`Find` returns is either `(i, es[i])` for the least index `i` whose element is called
`name`, with `0 ≤ i < len(es)` and `es[i]` not nil, or `(-1, nil)` with no element called
`name`. -/
theorem find_first_match (h : Heap) (es : List Element) (name : String) :
    ((∀ e ∈ es, e ≠ Element.nil) →
      (∀ (i : Nat) (e : Element), es[i]? = some e → Element.Name h e = .val name →
        (∀ (j : Nat) (e2 : Element), j < i → es[j]? = some e2 →
          Element.Name h e2 ≠ .val name) →
        Elements.Find h es name = .val ((i : Int), e)) ∧
      ((∀ e ∈ es, Element.Name h e ≠ .val name) →
        Elements.Find h es name = .val (-1, Element.nil))) ∧
    Elements.Find h [] name = .val (-1, Element.nil) ∧
    (∀ (i : Int) (e : Element), Elements.Find h es name = .val (i, e) →
      (∃ n : Nat, i = (n : Int) ∧ 0 ≤ i ∧ i < (es.length : Int) ∧ es[n]? = some e ∧
        e ≠ Element.nil ∧ Element.Name h e = .val name ∧
        (∀ (j : Nat) (e2 : Element), j < n → es[j]? = some e2 →
          Element.Name h e2 ≠ .val name)) ∨
      (i = -1 ∧ e = Element.nil ∧ ∀ e2 ∈ es, Element.Name h e2 ≠ .val name)) := by
  refine ⟨fun hnn => ⟨?_, ?_⟩, rfl, ?_⟩
  · intro i e hi hn hfirst
    exact find_of_first h name es hnn i e hi hn hfirst
  · intro hnone
    exact find_of_none h name es hnn hnone
  · intro i e hr
    rcases findFrom_returns h name es 0 i e hr with
      ⟨n, hi, hn, hnil, hname, hfirst⟩ | hnone
    · have hlt : n < es.length := by
        obtain ⟨hlt, _⟩ := List.getElem?_eq_some.mp hn
        exact hlt
      refine Or.inl ⟨n, by simpa using hi, ?_, ?_, hn, hnil, hname, hfirst⟩
      · rw [hi]; omega
      · rw [hi]; omega
    · exact Or.inr hnone

/-- Witness of C15: among the children `a`, `b`, `a` of Structure 0 of the second example
heap, `Find("b")` returns index 1 and `Find("a")` index 0, the first of the two
matches; `Find("z")` returns `(-1, nil)`. -/
theorem find_first_match_witness :
    Elements.Find lookupHeap [.number 0, .number 1, .number 2] "b" = .val (1, .number 1) ∧
    Elements.Find lookupHeap [.number 0, .number 1, .number 2] "a" = .val (0, .number 0) ∧
    Elements.Find lookupHeap [.number 0, .number 1, .number 2] "z" =
      .val (-1, Element.nil) :=
  ⟨((find_first_match lookupHeap [.number 0, .number 1, .number 2] "b").1 (by decide)).1
      1 (.number 1) rfl rfl (by
        intro j e2 hj he
        interval_cases j
        simp only [List.getElem?_cons_zero, Option.some.injEq] at he
        subst he
        decide),
    ((find_first_match lookupHeap [.number 0, .number 1, .number 2] "a").1 (by decide)).1
      0 (.number 0) rfl rfl (fun j _ hj => absurd hj (Nat.not_lt_zero j)),
    ((find_first_match lookupHeap [.number 0, .number 1, .number 2] "z").1 (by decide)).2
      (by decide)⟩

/-- C16. Setter/getter round trip for signedness: on every heap (every `extends` and
`parent` pointer), after `SetSigned(b)` on a Structure or a Number its `Signed()` returns
`b` at every positive stack depth; after a second `SetSigned(b2)` it returns `b2`, and
the heap is the one that `SetSigned(b2)` alone produces.  The setter leaves the
`extends` and `parent` pointers as they were. -/
theorem setSigned_roundtrip (h : Heap) (a fuel : Nat) (b b2 : Bool) :
    Structure.Signed (Structure.SetSigned h a b) (fuel + 1) a = .val b ∧
    Structure.Signed (Structure.SetSigned (Structure.SetSigned h a b) a b2) (fuel + 1) a =
      .val b2 ∧
    (Structure.SetSigned (Structure.SetSigned h a b) a b2).structures =
      (Structure.SetSigned h a b2).structures ∧
    ((Structure.SetSigned h a b).structures a).extends_ = (h.structures a).extends_ ∧
    ((Structure.SetSigned h a b).structures a).parent = (h.structures a).parent ∧
    Number.Signed (Number.SetSigned h a b) (fuel + 1) a = .val b ∧
    Number.Signed (Number.SetSigned (Number.SetSigned h a b) a b2) (fuel + 1) a = .val b2 ∧
    (Number.SetSigned (Number.SetSigned h a b) a b2).numbers =
      (Number.SetSigned h a b2).numbers ∧
    ((Number.SetSigned h a b).numbers a).extends_ = (h.numbers a).extends_ ∧
    ((Number.SetSigned h a b).numbers a).parent = (h.numbers a).parent := by
  have hbool : ∀ c : Bool, boolOf c ≠ TriBool.UnknownBool ∧ (boolOf c).bool = .val c := by
    intro c; cases c <;> exact ⟨by decide, rfl⟩
  refine ⟨?_, ?_, ?_, ?_, ?_, ?_, ?_, ?_, ?_, ?_⟩
  · have hs : ((Structure.SetSigned h a b).structures a).signed = boolOf b := by
      simp [Structure.SetSigned]
    rw [structure_signed_succ, hs, if_pos (hbool b).1, (hbool b).2]
  · have hs : ((Structure.SetSigned (Structure.SetSigned h a b) a b2).structures a).signed =
        boolOf b2 := by
      simp [Structure.SetSigned]
    rw [structure_signed_succ, hs, if_pos (hbool b2).1, (hbool b2).2]
  · funext x
    by_cases hx : x = a <;> simp [Structure.SetSigned, hx]
  · simp [Structure.SetSigned]
  · simp [Structure.SetSigned]
  · have hs : ((Number.SetSigned h a b).numbers a).signed = boolOf b := by
      simp [Number.SetSigned]
    rw [number_signed_succ, hs, if_pos (hbool b).1, (hbool b).2]
  · have hs : ((Number.SetSigned (Number.SetSigned h a b) a b2).numbers a).signed =
        boolOf b2 := by
      simp [Number.SetSigned]
    rw [number_signed_succ, hs, if_pos (hbool b2).1, (hbool b2).2]
  · funext x
    by_cases hx : x = a <;> simp [Number.SetSigned, hx]
  · simp [Number.SetSigned]
  · simp [Number.SetSigned]

/-- C17. Signed() never panics on well-formed elements.  Let every chain of `extends` and
`parent` pointers from a Structure (resp. Number) be finite, and let the `signed` field
of every element reachable from it through these pointers, itself included, be one of
the declared constants `UnknownBool`, `False`, `True`.  Then `Signed()` returns a boolean:
there is a stack depth from which on it returns one and the same value; and at no stack
depth does it panic.  The reason is that `bool()` returns a value on every declared
constant other than `UnknownBool`. -/
theorem signed_never_panics (h : Heap) :
    (∀ a, Structure.FiniteChains h a →
      (∀ b, Structure.Reaches h a b → (h.structures b).signed.Declared) →
        (∃ fuel v, ∀ k, Structure.Signed h (fuel + k) a = .val v) ∧
        (∀ fuel msg, Structure.Signed h fuel a ≠ .panic msg)) ∧
    (∀ n, Number.FiniteChains h n →
      (∀ m, Number.ReachesNumber h n m → (h.numbers m).signed.Declared) →
      (∀ s, Number.ReachesStructure h n s → (h.structures s).signed.Declared) →
        (∃ fuel v, ∀ k, Number.Signed h (fuel + k) n = .val v) ∧
        (∀ fuel msg, Number.Signed h fuel n ≠ .panic msg)) ∧
    (∀ b : TriBool, b.Declared → b ≠ TriBool.UnknownBool → ∃ v, b.bool = .val v) := by
  refine ⟨?_, ?_, ?_⟩
  · intro a hfin hdecl
    obtain ⟨fuel, v, hv⟩ := structure_signed_total h a hfin hdecl
    have key := no_panic_of_value (fun f => Structure.Signed h f a)
      (fun f1 f2 hle hne => structure_signed_fuel_le h f1 f2 a hle hne) fuel v hv
    exact ⟨⟨fuel, v, key.1⟩, key.2⟩
  · intro n hfin hdeclN hdeclS
    obtain ⟨fuel, v, hv⟩ := number_signed_total h n hfin hdeclN hdeclS
    have key := no_panic_of_value (fun f => Number.Signed h f n)
      (fun f1 f2 hle hne => number_signed_fuel_le h f1 f2 n hle hne) fuel v hv
    exact ⟨⟨fuel, v, key.1⟩, key.2⟩
  · intro b hd hne
    rcases hd with hu | hf | ht
    · exact absurd hu hne
    · exact ⟨false, by rw [hf]; rfl⟩
    · exact ⟨true, by rw [ht]; rfl⟩

/-- Witness of C17: Structure 3 of the example heap resolves through the chain
3, 2, 0 and Number 2 through the chain 2, 0; all chains from them are finite and all
`signed` fields of the heap are declared constants.  Both return `false` and never
panic. -/
theorem signed_never_panics_witness :
    ((∃ fuel v, ∀ k, Structure.Signed demoHeap (fuel + k) 3 = .val v) ∧
      (∀ fuel msg, Structure.Signed demoHeap fuel 3 ≠ .panic msg)) ∧
    ((∃ fuel v, ∀ k, Number.Signed demoHeap (fuel + k) 2 = .val v) ∧
      (∀ fuel msg, Number.Signed demoHeap fuel 2 ≠ .panic msg)) ∧
    Structure.Signed demoHeap 3 3 = .val false ∧ Number.Signed demoHeap 2 2 = .val false :=
  ⟨(signed_never_panics demoHeap).1 3 demoHeap_structure_finite_3
      (fun b _ => demoHeap_structures_declared b),
    (signed_never_panics demoHeap).2.1 2 demoHeap_number_finite_2
      (fun m _ => demoHeap_numbers_declared m) (fun s _ => demoHeap_structures_declared s),
    rfl, rfl⟩

/-- C18. Tri-state Bool conversion: the declared constants are `UnknownBool = 0`,
`False = 1` and `True = 2`, and a value is declared exactly when it is one of these
three; `bool()` returns `false` for `False` and `true` for `True`, and it panics (with
"Unknown bool state") if and only if the value is neither `False` nor `True`, as for
`UnknownBool`. -/
theorem tribool_conversion :
    TriBool.UnknownBool.val = 0 ∧ TriBool.False.val = 1 ∧ TriBool.True.val = 2 ∧
    (∀ b : TriBool, b.Declared ↔ (b.val = 0 ∨ b.val = 1 ∨ b.val = 2)) ∧
    TriBool.False.bool = .val false ∧ TriBool.True.bool = .val true ∧
    (∀ b : TriBool, (∃ msg, b.bool = .panic msg) ↔ (b ≠ TriBool.False ∧ b ≠ TriBool.True)) ∧
    (∀ b : TriBool, b.bool = .panic "Unknown bool state" ↔
      (b ≠ TriBool.False ∧ b ≠ TriBool.True)) ∧
    TriBool.UnknownBool.bool = .panic "Unknown bool state" := by
  have key : ∀ b : TriBool, b.bool = .panic "Unknown bool state" ↔
      (b ≠ TriBool.False ∧ b ≠ TriBool.True) := by
    intro b
    unfold TriBool.bool
    by_cases h1 : b = TriBool.False
    · simp [h1]
    · by_cases h2 : b = TriBool.True
      · rw [if_neg h1, if_pos h2]
        simp [h2]
      · simp [h1, h2]
  refine ⟨rfl, rfl, rfl, ?_, rfl, rfl, ?_, key, rfl⟩
  · intro b
    cases b with
    | mk v => simp [TriBool.Declared, TriBool.UnknownBool, TriBool.False, TriBool.True]
  · intro b
    constructor
    · rintro ⟨msg, hm⟩
      unfold TriBool.bool at hm
      by_cases h1 : b = TriBool.False
      · simp [h1] at hm
      · by_cases h2 : b = TriBool.True
        · rw [if_neg h1, if_pos h2] at hm
          exact absurd hm (by simp)
        · exact ⟨h1, h2⟩
    · intro hb
      exact ⟨_, (key b).mpr hb⟩

/-- Witness of C18: the value 5, which is none of the declared constants, makes `bool()`
panic, and so does the unset state. -/
theorem tribool_conversion_witness :
    (⟨5⟩ : TriBool).bool = .panic "Unknown bool state" ∧
    ¬ (⟨5⟩ : TriBool).Declared ∧
    TriBool.UnknownBool.bool = .panic "Unknown bool state" :=
  ⟨(tribool_conversion.2.2.2.2.2.2.2.1 ⟨5⟩).mpr ⟨by decide, by decide⟩,
    fun hd => absurd ((tribool_conversion.2.2.2.1 ⟨5⟩).mp hd) (by decide),
    (tribool_conversion.2.2.2.2.2.2.2.1 TriBool.UnknownBool).mpr ⟨by decide, by decide⟩⟩

end ufwb
